import Mathlib

/-!
Shallow embedding of `rsolver.py`, a resistive-network reduction engine.

Modelling conventions:
* Node identifiers are natural numbers (the source uses Python ints).
* Resistance values are rationals, modelling the exact arithmetic laws the
  source's formulas implement (the source uses Python numbers; division by
  zero and non-positive resistances are undefined behaviour per the design).
* `Resistor.__eq__` compares `(resistance, unordered endpoint pair)`; the
  relation `req` below reproduces it and is used wherever Python `==`,
  `set` membership, or `list.remove` compare resistors.
* Python `dict` (insertion-ordered) becomes an association list
  `List (Nat × List Resistor)`; Python `set` of resistors becomes a list
  that is kept duplicate-free modulo `req` by `setAddReq`/`discardReq`.
* Fallible Python code (KeyError, ValueError, AssertionError,
  ZeroDivisionError, the `otherthan` Exception) is modelled with `Option`:
  `none` means the corresponding call raises.
* Unbounded `while` loops take explicit fuel; `none` on fuel exhaustion.
  The randomized choice in `find_delta` is modelled by passing the chooser
  as a parameter (randomness itself is not shallow-embeddable).
-/

namespace RSolver

/-- A resistor: resistance `r` between nodes `n1` and `n2`
(source: `Resistor` namedtuple). -/
structure Resistor where
  r : ℚ
  n1 : ℕ
  n2 : ℕ
deriving DecidableEq, Repr

/-- The unordered endpoint set of a resistor (source: `Resistor.nodes`,
viewed as a set, as Python's `__eq__`/`__hash__` do). -/
def Resistor.fnodes (x : Resistor) : Finset ℕ := {x.n1, x.n2}

/-- The endpoint pair of a resistor as the ordered tuple
(source: `Resistor.nodes`). -/
def Resistor.nodesList (x : Resistor) : List ℕ := [x.n1, x.n2]

/-- Python `Resistor.__eq__`: equal resistance and equal endpoint set. -/
def req (a b : Resistor) : Prop :=
  a.r = b.r ∧ a.fnodes = b.fnodes

instance (a b : Resistor) : Decidable (req a b) := by
  unfold req; infer_instance

theorem req_refl (a : Resistor) : req a a := ⟨rfl, rfl⟩

theorem req_symm {a b : Resistor} (h : req a b) : req b a :=
  ⟨h.1.symm, h.2.symm⟩

theorem req_trans {a b c : Resistor} (h1 : req a b) (h2 : req b c) : req a c :=
  ⟨h1.1.trans h2.1, h1.2.trans h2.2⟩

/-- Count of occurrences of (resistors `req`-equal to) `x` in a list. -/
def countReq (l : List Resistor) (x : Resistor) : ℕ :=
  l.countP (fun y => decide (req y x))

/-- Membership modulo the Python resistor equality. -/
def memReq (l : List Resistor) (x : Resistor) : Prop :=
  ∃ y ∈ l, req y x

instance (l : List Resistor) (x : Resistor) : Decidable (memReq l x) := by
  unfold memReq; infer_instance

/-- Python `set.add` on the resistor set: no change when a `req`-equal
element is already present. -/
def setAddReq (l : List Resistor) (x : Resistor) : List Resistor :=
  if memReq l x then l else l ++ [x]

/-- Python `set.discard` on the resistor set: drop the (unique, as a set)
`req`-equal element if present. -/
def discardReq : List Resistor → Resistor → List Resistor
  | [], _ => []
  | y :: ys, x => if req y x then ys else y :: discardReq ys x

/-- Python `list.remove` (used on adjacency lists): remove the first
`req`-equal occurrence, `ValueError` (`none`) if absent. -/
def removeFirstReq : List Resistor → Resistor → Option (List Resistor)
  | [], _ => none
  | y :: ys, x =>
      if req y x then some ys
      else (removeFirstReq ys x).map (fun l => y :: l)

/-- The adjacency structure: Python's insertion-ordered
`dict` from node to list of incident resistors. -/
abbrev Adjacency := List (ℕ × List Resistor)

/-- Dictionary lookup `nodes[n]` (first entry with key `n`). -/
def lookupA (nodes : Adjacency) (n : ℕ) : Option (List Resistor) :=
  (nodes.find? (fun p => decide (p.1 = n))).map Prod.snd

/-- Replace the value stored at key `n` (key assumed present). -/
def setA (nodes : Adjacency) (n : ℕ) (l : List Resistor) : Adjacency :=
  nodes.map (fun p => if p.1 = n then (p.1, l) else p)

/-- Python `del nodes[n]`. -/
def delA (nodes : Adjacency) (n : ℕ) : Adjacency :=
  nodes.filter (fun p => decide (¬ p.1 = n))

/-- Python `nodes.setdefault(n, []).append(res)`: append to the list at
key `n`, creating the key (at the end, as dict insertion does) if absent. -/
def addAdjA (nodes : Adjacency) (n : ℕ) (res : Resistor) : Adjacency :=
  match lookupA nodes n with
  | some l => setA nodes n (l ++ [res])
  | none => nodes ++ [(n, [res])]

/-- The resistor network (source: class `RNetwork`). -/
structure RNetwork where
  nodes : Adjacency
  resistors : List Resistor
  terminals : List ℕ
deriving DecidableEq, Repr

/-- `RNetwork.__init__`: empty graph. -/
def RNetwork.empty : RNetwork := ⟨[], [], []⟩

/-- The current node identifiers (keys of the adjacency dict). -/
def nodeKeys (net : RNetwork) : List ℕ := net.nodes.map Prod.fst

/-- Source `RNetwork.add`: insert into both endpoints' adjacency lists and
into the resistor set. -/
def RNetwork.add (net : RNetwork) (res : Resistor) : RNetwork :=
  { nodes := addAdjA (addAdjA net.nodes res.n1 res) res.n2 res
    resistors := setAddReq net.resistors res
    terminals := net.terminals }

/-- One endpoint's step of `RNetwork.remove`:
`nodes[node].remove(res); if not nodes[node]: del nodes[node]`. -/
def nodeRemoveStep (nodes : Adjacency) (n : ℕ) (res : Resistor) :
    Option Adjacency := do
  let l ← lookupA nodes n
  let l' ← removeFirstReq l res
  pure (if l'.isEmpty then delA nodes n else setA nodes n l')

/-- Source `RNetwork.remove`: drop `res` from both endpoints' adjacency
lists (deleting emptied entries) and discard it from the resistor set;
fails (KeyError / ValueError) if an expected occurrence is missing. -/
def RNetwork.remove (net : RNetwork) (res : Resistor) : Option RNetwork := do
  let ns1 ← nodeRemoveStep net.nodes res.n1 res
  let ns2 ← nodeRemoveStep ns1 res.n2 res
  pure { nodes := ns2
         resistors := discardReq net.resistors res
         terminals := net.terminals }

/-- Source `RNetwork.add_terminal` (`set.add`). -/
def RNetwork.add_terminal (net : RNetwork) (n : ℕ) : RNetwork :=
  { net with terminals := if n ∈ net.terminals then net.terminals else net.terminals ++ [n] }

/-- Source `RNetwork.remove_terminal` (`set.discard`). -/
def RNetwork.remove_terminal (net : RNetwork) (n : ℕ) : RNetwork :=
  { net with terminals := net.terminals.filter (fun m => decide (¬ m = n)) }

/-- Source `RNetwork.find_parallel`: resistors in `nodes[n1]` having `n2`
as an endpoint; KeyError (`none`) when `n1` has no adjacency entry. -/
def RNetwork.find_parallel (net : RNetwork) (n1 n2 : ℕ) :
    Option (List Resistor) :=
  (lookupA net.nodes n1).map
    (fun l => l.filter (fun r => decide (n2 = r.n1) || decide (n2 = r.n2)))

/-- Source `RNetwork.usage`: incident-resistor count plus 1 for a terminal;
KeyError (`none`) when the node has no adjacency entry. -/
def RNetwork.usage (net : RNetwork) (n : ℕ) : Option ℕ :=
  (lookupA net.nodes n).map
    (fun l => l.length + (if n ∈ net.terminals then 1 else 0))

/-- Source helper `otherthan` on node identifiers: whichever of `y1`, `y2`
differs from `x`; raises (`none`) if `x` matches neither. -/
def otherthan (x y1 y2 : ℕ) : Option ℕ :=
  if x = y1 then some y2 else if x = y2 then some y1 else none

/-- Source helper `otherthan` applied to resistors, which Python compares
with `Resistor.__eq__` (`req`). -/
def otherthanR (x y1 y2 : Resistor) : Option Resistor :=
  if req x y1 then some y2 else if req x y2 then some y1 else none

/-- Forward walk of `RNetwork.find_series` (the first `while True` loop):
extend the chain `ret` past `lastnode` while the next node is a
non-terminal of usage 2.  Fuel models the unbounded loop; KeyError /
`otherthan`'s Exception / a wrong-arity adjacency list give `none`. -/
def fseries_fwd (net : RNetwork) : ℕ → List Resistor → ℕ →
    Option (List Resistor × ℕ)
  | 0, _, _ => none
  | fuel + 1, ret, lastnode => do
    let last ← ret.getLast?
    let node ← otherthan lastnode last.n1 last.n2
    let u ← net.usage node
    if u ≠ 2 ∨ node ∈ net.terminals then
      some (ret, node)
    else
      match (← lookupA net.nodes node) with
      | [a, b] => do
          let nxt ← otherthanR last a b
          fseries_fwd net fuel (ret ++ [nxt]) node
      | _ => none

/-- Backward walk of `RNetwork.find_series` (the second `while True` loop):
extend the chain in front of `firstnode` symmetrically. -/
def fseries_bwd (net : RNetwork) : ℕ → List Resistor → ℕ →
    Option (List Resistor × ℕ)
  | 0, _, _ => none
  | fuel + 1, ret, firstnode => do
    let first ← ret.head?
    let node ← otherthan firstnode first.n1 first.n2
    let u ← net.usage node
    if u ≠ 2 ∨ node ∈ net.terminals then
      some (ret, node)
    else
      match (← lookupA net.nodes node) with
      | [a, b] => do
          let prev ← otherthanR first a b
          fseries_bwd net fuel (prev :: ret) node
      | _ => none

/-- Source `RNetwork.find_series`: the maximal series chain through
`startnode`, returned together with its boundary nodes; an empty chain
(with both boundaries equal to `startnode`) when `startnode` is not an
internal pass-through point. -/
def RNetwork.find_series (net : RNetwork) (fuel : ℕ) (startnode : ℕ) :
    Option (List Resistor × ℕ × ℕ) := do
  let u ← net.usage startnode
  if u ≠ 2 ∨ startnode ∈ net.terminals then
    some ([], startnode, startnode)
  else do
    let ret ← lookupA net.nodes startnode
    let (ret, lastnode) ← fseries_fwd net fuel ret startnode
    let (ret, firstnode) ← fseries_bwd net fuel ret startnode
    some (ret, firstnode, lastnode)

/-- Remove each resistor of `branches` in order
(the removals inside `join_parallel`'s loop / `join_series`'s loop). -/
def removeAll (net : RNetwork) : List Resistor → Option RNetwork
  | [] => some net
  | b :: bs => do removeAll (← net.remove b) bs

/-- Source `RNetwork.join_parallel`: no-op on a single branch; otherwise
sum the conductances, remove every branch and insert the single
equivalent resistor between the last branch's endpoints.  On an empty
list the source raises (ZeroDivisionError / unbound `branch`): `none`. -/
def RNetwork.join_parallel (net : RNetwork) (branches : List Resistor) :
    Option RNetwork :=
  if branches.length = 1 then some net
  else
    match branches.getLast? with
    | none => none
    | some last => do
        let conductance := (branches.map (fun b => 1 / b.r)).sum
        let net ← removeAll net branches
        some (net.add ⟨1 / conductance, last.n1, last.n2⟩)

/-- Source `RNetwork.join_series`: remove every chain resistor and insert
one resistor carrying the summed resistance between the boundary nodes. -/
def RNetwork.join_series (net : RNetwork) (resistors : List Resistor)
    (firstnode lastnode : ℕ) : Option RNetwork := do
  let r := (resistors.map Resistor.r).sum
  let net ← removeAll net resistors
  some (net.add ⟨r, firstnode, lastnode⟩)

/-- Source static `RNetwork.wye_to_delta`: the three delta resistances. -/
def wye_to_delta (r1 r2 r3 : ℚ) : ℚ × ℚ × ℚ :=
  let rp := r1 * r2 + r2 * r3 + r3 * r1
  (rp / r1, rp / r2, rp / r3)

/-- Source static `RNetwork.delta_to_wye`: the three wye resistances. -/
def delta_to_wye (r1 r2 r3 : ℚ) : ℚ × ℚ × ℚ :=
  let rs := r1 + r2 + r3
  (r2 * r3 / rs, r3 * r1 / rs, r1 * r2 / rs)

/-- Source `RNetwork.convert_wye_to_delta`: find the unique common endpoint
(`assert` failure → `none`), compute the outer nodes, replace the three
wye arms by the three delta edges. -/
def RNetwork.convert_wye_to_delta (net : RNetwork) (r1 r2 r3 : Resistor) :
    Option RNetwork := do
  let common := (r1.nodesList ∩ r2.nodesList ∩ r3.nodesList).dedup
  let center ← if common.length = 1 then common.head? else none
  let n1 ← otherthan center r1.n1 r1.n2
  let n2 ← otherthan center r2.n1 r2.n2
  let n3 ← otherthan center r3.n1 r3.n2
  let rd := wye_to_delta r1.r r2.r r3.r
  let net ← net.remove r1
  let net ← net.remove r2
  let net ← net.remove r3
  some (((net.add ⟨rd.1, n2, n3⟩).add ⟨rd.2.1, n3, n1⟩).add ⟨rd.2.2, n1, n2⟩)

/-- Bounded search for `RNetwork.free_node`'s `itertools.count` loop:
first identifier `≥ start` outside `keys`, with enough fuel. -/
def firstFreeFrom (keys : List ℕ) : ℕ → ℕ → ℕ
  | 0, start => start
  | fuel + 1, start => if start ∈ keys then firstFreeFrom keys fuel (start + 1) else start

/-- Source `RNetwork.free_node`: count up from `len(self.nodes)` and return
the first identifier that is not a current adjacency key.  (The source
loop is unbounded; fuel `max + 1` provably suffices, see
`firstFreeFrom_not_mem`.) -/
def RNetwork.free_node (net : RNetwork) : ℕ :=
  let keys := nodeKeys net
  firstFreeFrom keys (keys.foldr max 0 + 1) keys.length

/-- Source `RNetwork.convert_delta_to_wye`: allocate a fresh center node,
check the triangle's endpoints collapse to three nodes (`assert` failure →
`none`), replace the triangle by the three wye arms.  `next(iter(...))` on
the one-element difference sets becomes a match on `Finset.toList`. -/
def RNetwork.convert_delta_to_wye (net : RNetwork) (ra rb rc : Resistor) :
    Option RNetwork := do
  let center := net.free_node
  let rw3 := delta_to_wye ra.r rb.r rc.r
  let nodes := (ra.nodesList ++ rb.nodesList ++ rc.nodesList).dedup
  if nodes.length = 3 then do
    let oa ← (nodes.filter (fun n => decide (n ∉ ra.nodesList))).head?
    let ob ← (nodes.filter (fun n => decide (n ∉ rb.nodesList))).head?
    let oc ← (nodes.filter (fun n => decide (n ∉ rc.nodesList))).head?
    let net ← net.remove ra
    let net ← net.remove rb
    let net ← net.remove rc
    some (((net.add ⟨rw3.1, center, oa⟩).add ⟨rw3.2.1, center, ob⟩).add
      ⟨rw3.2.2, center, oc⟩)
  else none

/-- Loop body list of `RNetwork.solve_series`: iterate over a snapshot of
the node keys, skipping nodes deleted meanwhile, joining every non-empty
series chain found. -/
def solveSeriesGo (fuel : ℕ) : List ℕ → RNetwork → Bool →
    Option (RNetwork × Bool)
  | [], net, found => some (net, found)
  | node :: rest, net, found =>
      if (lookupA net.nodes node).isNone then
        solveSeriesGo fuel rest net found
      else do
        let t ← net.find_series fuel node
        if t.1.isEmpty then
          solveSeriesGo fuel rest net found
        else do
          let net ← net.join_series t.1 t.2.1 t.2.2
          solveSeriesGo fuel rest net true

/-- Source `RNetwork.solve_series`. -/
def RNetwork.solve_series (net : RNetwork) (fuel : ℕ) :
    Option (RNetwork × Bool) :=
  solveSeriesGo fuel (nodeKeys net) net false

/-- Loop body of `RNetwork.solve_parallel`: iterate over a snapshot of the
resistor set, skipping resistors removed meanwhile, merging every parallel
bundle of size at least two. -/
def solveParallelGo : List Resistor → RNetwork → Bool →
    Option (RNetwork × Bool)
  | [], net, found => some (net, found)
  | resistor :: rest, net, found =>
      if ¬ memReq net.resistors resistor then
        solveParallelGo rest net found
      else do
        let rs ← net.find_parallel resistor.n1 resistor.n2
        if rs.length = 1 then
          solveParallelGo rest net found
        else do
          let net ← net.join_parallel rs
          solveParallelGo rest net true

/-- Source `RNetwork.solve_parallel`. -/
def RNetwork.solve_parallel (net : RNetwork) : Option (RNetwork × Bool) :=
  solveParallelGo net.resistors net false

/-- Source `RNetwork.find_wye`: the first adjacency entry (in dict order)
with exactly three incident resistors at a non-terminal node; `ValueError`
(`none`) if there is none. -/
def RNetwork.find_wye (net : RNetwork) :
    Option (Resistor × Resistor × Resistor) :=
  net.nodes.findSome? (fun p =>
    match p.2 with
    | [a, b, c] => if p.1 ∈ net.terminals then none else some (a, b, c)
    | _ => none)

/-- Source `RNetwork.prune_dangling`: over a snapshot of the node keys,
remove the single resistor of every non-terminal degree-1 node.  The
snapshot may name a node whose entry was deleted meanwhile: looking it
up raises KeyError (`none`). -/
def pruneDanglingGo : List ℕ → RNetwork → Option RNetwork
  | [], net => some net
  | node :: rest, net => do
      let resistors ← lookupA net.nodes node
      if node ∉ net.terminals ∧ resistors.length = 1 then do
        match resistors.head? with
        | some r => do
            let net ← net.remove r
            pruneDanglingGo rest net
        | none => none
      else
        pruneDanglingGo rest net

/-- Source `RNetwork.prune_dangling`. -/
def RNetwork.prune_dangling (net : RNetwork) : Option RNetwork :=
  pruneDanglingGo (nodeKeys net) net

/-- The inner `while self.solve_parallel() or self.solve_series()` loop of
`RNetwork.solve`, with Python's short-circuiting `or`. -/
def spLoop (sfuel : ℕ) : ℕ → RNetwork → Option RNetwork
  | 0, _ => none
  | fuel + 1, net => do
    let p ← net.solve_parallel
    if p.2 then spLoop sfuel fuel p.1
    else do
      let s ← p.1.solve_series sfuel
      if s.2 then spLoop sfuel fuel s.1 else some s.1

/-- Source `RNetwork.solve`, parametrized by the delta-choosing strategy
(`find_delta` is randomized; any strategy, including the source's, is an
instance of `chooser`).  Outer fuel bounds the `while True` loop. -/
def solveFuel (chooser : RNetwork → Option (Resistor × Resistor × Resistor))
    (sfuel lfuel : ℕ) : ℕ → RNetwork → Option RNetwork
  | 0, _ => none
  | fuel + 1, net => do
    let net ← net.prune_dangling
    let net ← spLoop sfuel lfuel net
    match net.find_wye with
    | some w => do
        let net ← net.convert_wye_to_delta w.1 w.2.1 w.2.2
        solveFuel chooser sfuel lfuel fuel net
    | none =>
        if (nodeKeys net).toFinset = net.terminals.toFinset then
          some net
        else do
          let w ← chooser net
          let net ← net.convert_delta_to_wye w.1 w.2.1 w.2.2
          solveFuel chooser sfuel lfuel fuel net

/-! ### Derived notions used by the specification statements -/

/-- Build a network as the construction contract prescribes: add each
resistor once, then mark the terminals. -/
def buildNet (rs : List Resistor) (ts : List ℕ) : RNetwork :=
  ts.foldl RNetwork.add_terminal (rs.foldl RNetwork.add RNetwork.empty)

/-- The adjacency list of a node, reading an absent entry as empty. -/
def adjOf (nodes : Adjacency) (n : ℕ) : List Resistor :=
  (lookupA nodes n).getD []

/-- How many resistors `req`-equal to `x` are incident to node `n`. -/
def cnt (net : RNetwork) (x : Resistor) (n : ℕ) : ℕ :=
  countReq (adjOf net.nodes n) x

/-- The resistor list represents a Python `set`: no two elements are
`req`-equal. -/
def SetInv (l : List Resistor) : Prop :=
  l.Pairwise (fun a b => ¬ req a b)

instance (l : List Resistor) : Decidable (SetInv l) := by
  unfold SetInv; infer_instance

/-- Every adjacency entry lists only resistors incident to its node
(data-model invariant relating `nodes` to endpoints). -/
def AdjInc (net : RNetwork) : Prop :=
  ∀ p ∈ net.nodes, ∀ r ∈ p.2, p.1 = r.n1 ∨ p.1 = r.n2

instance (net : RNetwork) : Decidable (AdjInc net) := by
  unfold AdjInc; infer_instance

/-- A single primitive mutation of the graph as performed by the caller
or by the rewriting rules: an `add` of a well-formed new resistor
(distinct endpoints, not currently present in any adjacency list), or a
successful `remove` of a two-ended resistor. -/
inductive GStep : RNetwork → RNetwork → Prop
  | add (net : RNetwork) (x : Resistor) :
      x.n1 ≠ x.n2 → cnt net x x.n1 = 0 → cnt net x x.n2 = 0 →
      GStep net (net.add x)
  | remove (net : RNetwork) (x : Resistor) (net' : RNetwork) :
      x.n1 ≠ x.n2 → net.remove x = some net' → GStep net net'

/-- States reachable from the empty graph by primitive mutations. -/
inductive GReach : RNetwork → Prop
  | empty : GReach RNetwork.empty
  | step {net net' : RNetwork} : GReach net → GStep net net' → GReach net'

/-- The adjacency/edge-set invariant maintained by well-formed mutations:
the edge set is duplicate-free, and every resistor's incidence counts at
its two endpoints are equal, at most one, and one exactly when the
resistor is in the edge set. -/
def C2Inv (net : RNetwork) : Prop :=
  SetInv net.resistors ∧
    ∀ s : Resistor, cnt net s s.n1 = cnt net s s.n2 ∧
      cnt net s s.n1 ≤ 1 ∧
      (memReq net.resistors s ↔ cnt net s s.n1 = 1)

/-- One application of a reduction operation (the operations quantified
over by the terminal-preservation property), as an inductive op code.
`solve` carries its fuels and the delta-choosing strategy standing for
`find_delta`'s randomness. -/
inductive ROp where
  | prune : ROp
  | series (fuel : ℕ) : ROp
  | parallel : ROp
  | wyeToDelta (r1 r2 r3 : Resistor) : ROp
  | deltaToWye (r1 r2 r3 : Resistor) : ROp
  | solve (chooser : RNetwork → Option (Resistor × Resistor × Resistor))
      (sfuel lfuel fuel : ℕ) : ROp

/-- Apply one reduction operation. -/
def ROp.apply : ROp → RNetwork → Option RNetwork
  | .prune, net => net.prune_dangling
  | .series fuel, net => (net.solve_series fuel).map Prod.fst
  | .parallel, net => net.solve_parallel.map Prod.fst
  | .wyeToDelta r1 r2 r3, net => net.convert_wye_to_delta r1 r2 r3
  | .deltaToWye r1 r2 r3, net => net.convert_delta_to_wye r1 r2 r3
  | .solve chooser sfuel lfuel fuel, net => solveFuel chooser sfuel lfuel fuel net

/-- Run a sequence of reduction operations. -/
def runOps : List ROp → RNetwork → Option RNetwork
  | [], net => some net
  | op :: ops, net => do runOps ops (← op.apply net)

/-- `find_series` started at `s` diverges: the source's `while True` walk
never reaches its exit condition, so no amount of fuel produces a
result. -/
def FindSeriesDiverges (net : RNetwork) (s : ℕ) : Prop :=
  ∀ fuel : ℕ, net.find_series fuel s = none

/-- A node is an internal pass-through point of a series chain: usage
exactly 2 and not a terminal. -/
def Passthrough (net : RNetwork) (n : ℕ) : Prop :=
  net.usage n = some 2 ∧ n ∉ net.terminals

/-- `SeriesChain net rs a b`: the resistors `rs`, in order, form a series
path from node `a` to node `b`: each resistor is entered at the node
where the previous one exited (`otherthan` computes the exit node), and
every intermediate node is a non-terminal of usage 2.  Such a chain is
maximal on its interior — no intermediate node could have stopped the
walk — so its boundary nodes are the first stopping points in each
direction. -/
def SeriesChain (net : RNetwork) : List Resistor → ℕ → ℕ → Prop
  | [], a, b => a = b
  | [r], a, b => otherthan a r.n1 r.n2 = some b
  | r :: r2 :: rs, a, b => ∃ c, otherthan a r.n1 r.n2 = some c ∧
      Passthrough net c ∧ SeriesChain net (r2 :: rs) c b

/-! ### Concrete example networks -/

/-- A single 1Ω resistor joining the non-terminal nodes 0 and 1. -/
def danglingNet : RNetwork := buildNet [⟨1, 0, 1⟩] []

/-- The same 2Ω resistor added twice between nodes 0 and 1
(the spec's two-parallel-2Ω scenario). -/
def dupNet : RNetwork := buildNet [⟨2, 0, 1⟩, ⟨2, 0, 1⟩] [0, 1]

/-- The 3Ω + 5Ω series chain with terminals 0 and 2. -/
def chainNet : RNetwork := buildNet [⟨3, 0, 1⟩, ⟨5, 1, 2⟩] [0, 2]

/-- A triangle of 1Ω resistors on nodes 0, 1, 2 with no terminals: every
node is a non-terminal of usage 2. -/
def cycleNet : RNetwork := buildNet [⟨1, 0, 1⟩, ⟨1, 1, 2⟩, ⟨1, 2, 0⟩] []

/-- Three parallel branches between nodes 0 and 1 (the
`test_solve_parallel` network). -/
def parNet : RNetwork := buildNet [⟨4, 0, 1⟩, ⟨8, 1, 0⟩, ⟨8, 0, 1⟩] []

/-- The wye on center node 3 from `test_wye_to_delta`. -/
def wyeNet : RNetwork := buildNet [⟨2, 0, 3⟩, ⟨4, 1, 3⟩, ⟨8, 2, 3⟩] []

/-- Intermediate state for the free-node reuse history: nodes 0,2 then
0,1,2 seen. -/
def reuseNet1 : RNetwork := buildNet [⟨1, 0, 2⟩] []

/-- Second state of the reuse history: resistors (0,2) and (0,1). -/
def reuseNet2 : RNetwork := reuseNet1.add ⟨1, 0, 1⟩

/-- A network whose terminal 2 has no incident resistor (and hence no
adjacency entry). -/
def openNet : RNetwork := buildNet [⟨1, 0, 1⟩] [0, 1, 2]

/-- A two-node network on keys 1 and 2, so that the free-node search
starting at the key count 2 must skip the occupied identifier 2. -/
def gapNet : RNetwork := buildNet [⟨1, 1, 2⟩] []

/-- A dangling 1Ω resistor hanging off the terminal 0. -/
def pruneWitNet : RNetwork := buildNet [⟨1, 0, 1⟩] [0]

/-! ### Lemmas on the Python-equality list primitives -/

theorem memReq_nil (x : Resistor) : ¬ memReq [] x := by
  simp [memReq]

theorem memReq_cons {y x : Resistor} {l : List Resistor} :
    memReq (y :: l) x ↔ req y x ∨ memReq l x := by
  simp [memReq]

theorem memReq_append {l1 l2 : List Resistor} {x : Resistor} :
    memReq (l1 ++ l2) x ↔ memReq l1 x ∨ memReq l2 x := by
  simp [memReq, or_and_right, exists_or]

theorem memReq_congr {l : List Resistor} {x y : Resistor} (h : req x y) :
    memReq l x ↔ memReq l y := by
  constructor
  · rintro ⟨z, hz, hzx⟩; exact ⟨z, hz, req_trans hzx h⟩
  · rintro ⟨z, hz, hzy⟩; exact ⟨z, hz, req_trans hzy (req_symm h)⟩

theorem mem_setAddReq {l : List Resistor} {y x : Resistor} :
    memReq (setAddReq l y) x ↔ req x y ∨ memReq l x := by
  unfold setAddReq
  split
  · rename_i hmem
    constructor
    · exact Or.inr
    · rintro (hxy | hx)
      · exact (memReq_congr hxy).mpr hmem
      · exact hx
  · rw [memReq_append, memReq_cons]
    constructor
    · rintro (hx | hyx | hfalse)
      · exact Or.inr hx
      · exact Or.inl (req_symm hyx)
      · exact absurd hfalse (memReq_nil x)
    · rintro (hxy | hx)
      · exact Or.inr (Or.inl (req_symm hxy))
      · exact Or.inl hx

theorem discardReq_sublist (l : List Resistor) (y : Resistor) :
    (discardReq l y).Sublist l := by
  induction l with
  | nil => simp [discardReq]
  | cons z zs ih =>
      unfold discardReq
      split
      · exact List.sublist_cons_self z zs
      · exact List.Sublist.cons₂ z ih

theorem SetInv.discard {l : List Resistor} (h : SetInv l) (y : Resistor) :
    SetInv (discardReq l y) :=
  List.Pairwise.sublist (discardReq_sublist l y) h

theorem SetInv.setAdd {l : List Resistor} (h : SetInv l) (y : Resistor) :
    SetInv (setAddReq l y) := by
  unfold setAddReq
  split
  · exact h
  · rename_i hmem
    unfold SetInv
    rw [List.pairwise_append]
    refine ⟨h, List.pairwise_singleton _ _, ?_⟩
    intro a ha b hb hab
    rw [List.mem_singleton] at hb
    exact hmem ⟨a, ha, hb ▸ hab⟩

theorem mem_discardReq {l : List Resistor} {y x : Resistor} (h : SetInv l) :
    memReq (discardReq l y) x ↔ memReq l x ∧ ¬ req x y := by
  induction l with
  | nil => simp [discardReq, memReq]
  | cons z zs ih =>
      rw [SetInv, List.pairwise_cons] at h
      unfold discardReq
      split
      · rename_i hzy
        rw [memReq_cons]
        constructor
        · intro hx
          refine ⟨Or.inr hx, ?_⟩
          intro hxy
          obtain ⟨w, hw, hwx⟩ := hx
          exact h.1 w hw (req_trans (req_trans hzy (req_symm hxy)) (req_symm hwx))
        · rintro ⟨hzx | hx, hxy⟩
          · exact absurd (req_trans (req_symm hzx) hzy) hxy
          · exact hx
      · rename_i hzy
        rw [memReq_cons, memReq_cons, ih h.2]
        constructor
        · rintro (hzx | ⟨hx, hxy⟩)
          · exact ⟨Or.inl hzx, fun hxy => hzy (req_trans hzx hxy)⟩
          · exact ⟨Or.inr hx, hxy⟩
        · rintro ⟨hzx | hx, hxy⟩
          · exact Or.inl hzx
          · exact Or.inr ⟨hx, hxy⟩

theorem countReq_congr {l : List Resistor} {x y : Resistor} (h : req x y) :
    countReq l x = countReq l y := by
  unfold countReq
  refine List.countP_congr ?_
  intro z _
  simp only [decide_eq_true_eq]
  exact ⟨fun hzx => req_trans hzx h, fun hzy => req_trans hzy (req_symm h)⟩

theorem countReq_pos_iff {l : List Resistor} {x : Resistor} :
    0 < countReq l x ↔ memReq l x := by
  unfold countReq memReq
  rw [List.countP_pos_iff]
  simp

theorem countReq_append {l1 l2 : List Resistor} {x : Resistor} :
    countReq (l1 ++ l2) x = countReq l1 x + countReq l2 x := by
  unfold countReq; rw [List.countP_append]

/-! ### Lemmas on the network primitives' components -/

theorem add_resistors (net : RNetwork) (x : Resistor) :
    (net.add x).resistors = setAddReq net.resistors x := rfl

theorem add_terminals (net : RNetwork) (x : Resistor) :
    (net.add x).terminals = net.terminals := rfl

theorem remove_parts {net : RNetwork} {x : Resistor} {net' : RNetwork}
    (h : net.remove x = some net') :
    net'.resistors = discardReq net.resistors x ∧
      net'.terminals = net.terminals := by
  unfold RNetwork.remove at h
  simp only [Option.bind_eq_bind, Option.bind_eq_some] at h
  obtain ⟨ns1, _, ns2, _, h2⟩ := h
  cases h2
  exact ⟨rfl, rfl⟩

theorem remove_resistors {net : RNetwork} {x : Resistor} {net' : RNetwork}
    (h : net.remove x = some net') :
    net'.resistors = discardReq net.resistors x := (remove_parts h).1

theorem remove_terminals {net : RNetwork} {x : Resistor} {net' : RNetwork}
    (h : net.remove x = some net') :
    net'.terminals = net.terminals := (remove_parts h).2

theorem removeAll_resistors : ∀ {bs : List Resistor} {net net' : RNetwork},
    removeAll net bs = some net' →
    net'.resistors = bs.foldl discardReq net.resistors := by
  intro bs
  induction bs with
  | nil =>
      intro net net' h
      cases h
      rfl
  | cons b bs ih =>
      intro net net' h
      unfold removeAll at h
      simp only [Option.bind_eq_bind, Option.bind_eq_some] at h
      obtain ⟨net1, h1, h2⟩ := h
      rw [List.foldl_cons, ← remove_resistors h1]
      exact ih h2

theorem removeAll_terminals : ∀ {bs : List Resistor} {net net' : RNetwork},
    removeAll net bs = some net' → net'.terminals = net.terminals := by
  intro bs
  induction bs with
  | nil =>
      intro net net' h
      cases h
      rfl
  | cons b bs ih =>
      intro net net' h
      unfold removeAll at h
      simp only [Option.bind_eq_bind, Option.bind_eq_some] at h
      obtain ⟨net1, h1, h2⟩ := h
      rw [ih h2, remove_terminals h1]

theorem SetInv.foldl_discard {L : List Resistor} (h : SetInv L)
    (bs : List Resistor) : SetInv (bs.foldl discardReq L) := by
  induction bs generalizing L with
  | nil => exact h
  | cons b bs ih => exact ih (h.discard b)

theorem memReq_foldl_discard {bs : List Resistor} :
    ∀ {L : List Resistor}, SetInv L → ∀ {x : Resistor},
    (memReq (bs.foldl discardReq L) x ↔
      memReq L x ∧ ¬ ∃ b ∈ bs, req x b) := by
  induction bs with
  | nil => intro L _ x; simp
  | cons b bs ih =>
      intro L hL x
      rw [List.foldl_cons, ih (hL.discard b), mem_discardReq hL]
      constructor
      · rintro ⟨⟨hx, hxb⟩, hrest⟩
        refine ⟨hx, ?_⟩
        rintro ⟨c, hc, hxc⟩
        rcases List.mem_cons.mp hc with rfl | hc'
        · exact hxb hxc
        · exact hrest ⟨c, hc', hxc⟩
      · rintro ⟨hx, hno⟩
        exact ⟨⟨hx, fun hxb => hno ⟨b, List.mem_cons_self b bs, hxb⟩⟩,
          fun ⟨c, hc, hxc⟩ => hno ⟨c, List.mem_cons_of_mem b hc, hxc⟩⟩

theorem req_congr_right {s x y : Resistor} (h : req x y) :
    req s x ↔ req s y :=
  ⟨fun hs => req_trans hs h, fun hs => req_trans hs (req_symm h)⟩

/-! ### Claim C4: join_parallel -/

/-- C4 counterexample: `join_parallel` called with zero branches is not a
no-op — the source raises (ZeroDivisionError / unbound `branch`), modelled
as `none`, instead of returning the unchanged graph. -/
theorem claim4_counterexample :
    RNetwork.empty.join_parallel [] = none := by
  decide

/-- C4 (amended): `join_parallel` is a no-op when given exactly one
resistor (it fails on zero); given `k ≥ 2` resistors all sharing the
endpoint set `{a, b}`, it removes every branch from the edge set and
inserts exactly one resistor of resistance `1 / (Σ 1/rᵢ)` between `a`
and `b`, leaving all other resistors unchanged. -/
theorem claim4_join_parallel (net net' : RNetwork) (branches : List Resistor)
    (a b : ℕ) (hinv : SetInv net.resistors) :
    (branches.length = 1 → net.join_parallel branches = some net) ∧
    (2 ≤ branches.length →
      (∀ x ∈ branches, x.fnodes = ({a, b} : Finset ℕ)) →
      net.join_parallel branches = some net' →
      ∀ s, memReq net'.resistors s ↔
        (req s ⟨1 / (branches.map (fun x => 1 / x.r)).sum, a, b⟩ ∨
          (memReq net.resistors s ∧ ¬ ∃ x ∈ branches, req s x))) := by
  constructor
  · intro hlen
    unfold RNetwork.join_parallel
    rw [if_pos hlen]
  · intro hlen hnodes hsucc s
    unfold RNetwork.join_parallel at hsucc
    rw [if_neg (by omega)] at hsucc
    cases hlast : branches.getLast? with
    | none => rw [hlast] at hsucc; exact absurd hsucc (by simp)
    | some last =>
        rw [hlast] at hsucc
        simp only [Option.bind_eq_bind, Option.bind_eq_some] at hsucc
        obtain ⟨net1, hrem, hadd⟩ := hsucc
        have hlast_mem : last ∈ branches := by
          obtain ⟨hb, heq⟩ := List.mem_getLast?_eq_getLast
            (l := branches) (x := last) (by rw [Option.mem_def, hlast])
          exact heq ▸ List.getLast_mem hb
        cases hadd
        rw [add_resistors, mem_setAddReq, removeAll_resistors hrem,
          memReq_foldl_discard hinv]
        have hr : req (⟨1 / (branches.map (fun x => 1 / x.r)).sum,
            last.n1, last.n2⟩ : Resistor)
            ⟨1 / (branches.map (fun x => 1 / x.r)).sum, a, b⟩ :=
          ⟨rfl, hnodes last hlast_mem⟩
        rw [req_congr_right hr]

/-- C4 witness: merging the three parallel branches 4Ω, 8Ω, 8Ω between
nodes 0 and 1 yields the single 2Ω equivalent resistor. -/
theorem claim4_witness :
    memReq [(⟨2, 0, 1⟩ : Resistor)] ⟨2, 0, 1⟩ ↔
      (req ⟨2, 0, 1⟩
          ⟨1 / (([⟨4, 0, 1⟩, ⟨8, 1, 0⟩, ⟨8, 0, 1⟩] :
            List Resistor).map (fun x => 1 / x.r)).sum, 0, 1⟩ ∨
        (memReq parNet.resistors ⟨2, 0, 1⟩ ∧
          ¬ ∃ x ∈ ([⟨4, 0, 1⟩, ⟨8, 1, 0⟩, ⟨8, 0, 1⟩] : List Resistor),
            req ⟨2, 0, 1⟩ x)) :=
  (claim4_join_parallel parNet
      ⟨[(0, [⟨2, 0, 1⟩]), (1, [⟨2, 0, 1⟩])], [⟨2, 0, 1⟩], []⟩
      [⟨4, 0, 1⟩, ⟨8, 1, 0⟩, ⟨8, 0, 1⟩] 0 1 (by decide)).2
    (by decide) (by decide) (by with_unfolding_all rfl) ⟨2, 0, 1⟩

/-! ### Claim C5: join_series -/

/-- C5: `join_series` on a non-empty chain removes every chain resistor
from the edge set and inserts exactly one resistor of the summed
resistance directly between the boundary nodes, leaving all other
resistors unchanged. -/
theorem claim5_join_series (net net' : RNetwork) (chain : List Resistor)
    (firstnode lastnode : ℕ) (hinv : SetInv net.resistors)
    (_hne : chain ≠ [])
    (h : net.join_series chain firstnode lastnode = some net') :
    ∀ s, memReq net'.resistors s ↔
      (req s ⟨(chain.map Resistor.r).sum, firstnode, lastnode⟩ ∨
        (memReq net.resistors s ∧ ¬ ∃ x ∈ chain, req s x)) := by
  intro s
  unfold RNetwork.join_series at h
  simp only [Option.bind_eq_bind, Option.bind_eq_some] at h
  obtain ⟨net1, hrem, hadd⟩ := h
  cases hadd
  rw [add_resistors, mem_setAddReq, removeAll_resistors hrem,
    memReq_foldl_discard hinv]

/-- C5 witness: joining the 3Ω, 5Ω chain between boundary nodes 0 and 2
yields the single 8Ω resistor. -/
theorem claim5_witness :
    memReq [(⟨8, 0, 2⟩ : Resistor)] ⟨8, 0, 2⟩ ↔
      (req ⟨8, 0, 2⟩
          ⟨(([⟨3, 0, 1⟩, ⟨5, 1, 2⟩] : List Resistor).map Resistor.r).sum,
            0, 2⟩ ∨
        (memReq chainNet.resistors ⟨8, 0, 2⟩ ∧
          ¬ ∃ x ∈ ([⟨3, 0, 1⟩, ⟨5, 1, 2⟩] : List Resistor),
            req ⟨8, 0, 2⟩ x)) :=
  claim5_join_series chainNet
    ⟨[(0, [⟨8, 0, 2⟩]), (2, [⟨8, 0, 2⟩])], [⟨8, 0, 2⟩], [0, 2]⟩
    [⟨3, 0, 1⟩, ⟨5, 1, 2⟩] 0 2 (by decide) (by decide)
    (by with_unfolding_all rfl) ⟨8, 0, 2⟩

/-! ### Lemmas on the adjacency dictionary -/

theorem lookupA_nil (n : ℕ) : lookupA [] n = none := rfl

theorem lookupA_cons (k : ℕ) (v : List Resistor) (rest : Adjacency) (n : ℕ) :
    lookupA ((k, v) :: rest) n = if k = n then some v else lookupA rest n := by
  unfold lookupA
  rw [List.find?_cons]
  by_cases h : k = n <;> simp [h]

theorem lookupA_mem {nodes : Adjacency} {n : ℕ} {l : List Resistor}
    (h : lookupA nodes n = some l) : (n, l) ∈ nodes := by
  induction nodes with
  | nil => cases h
  | cons p rest ih =>
      obtain ⟨k, v⟩ := p
      rw [lookupA_cons] at h
      by_cases hk : k = n
      · rw [if_pos hk] at h
        cases h
        exact hk ▸ List.mem_cons_self _ _
      · rw [if_neg hk] at h
        exact List.mem_cons_of_mem _ (ih h)

theorem lookupA_setA_self {nodes : Adjacency} {n : ℕ} (l : List Resistor)
    (h : (lookupA nodes n).isSome) :
    lookupA (setA nodes n l) n = some l := by
  induction nodes with
  | nil => simp [lookupA] at h
  | cons p rest ih =>
      obtain ⟨k, v⟩ := p
      by_cases hk : k = n
      · show lookupA ((if k = n then (k, l) else (k, v)) :: setA rest n l) n = some l
        rw [if_pos hk, lookupA_cons, if_pos hk]
      · show lookupA ((if k = n then (k, l) else (k, v)) :: setA rest n l) n = some l
        rw [if_neg hk, lookupA_cons, if_neg hk]
        rw [lookupA_cons, if_neg hk] at h
        exact ih h

theorem lookupA_setA_ne {nodes : Adjacency} {n m : ℕ} (l : List Resistor)
    (h : m ≠ n) : lookupA (setA nodes n l) m = lookupA nodes m := by
  induction nodes with
  | nil => rfl
  | cons p rest ih =>
      obtain ⟨k, v⟩ := p
      show lookupA ((if k = n then (k, l) else (k, v)) :: setA rest n l) m = _
      by_cases hk : k = n
      · have hkm : k ≠ m := fun hkm => h (hkm ▸ hk)
        rw [if_pos hk, lookupA_cons, lookupA_cons, if_neg hkm, if_neg hkm]
        exact ih
      · rw [if_neg hk, lookupA_cons, lookupA_cons]
        by_cases hkm : k = m
        · rw [if_pos hkm, if_pos hkm]
        · rw [if_neg hkm, if_neg hkm]
          exact ih

theorem lookupA_delA_self (nodes : Adjacency) (n : ℕ) :
    lookupA (delA nodes n) n = none := by
  induction nodes with
  | nil => rfl
  | cons p rest ih =>
      obtain ⟨k, v⟩ := p
      unfold delA
      rw [List.filter_cons]
      by_cases hk : k = n
      · rw [if_neg (by simp [hk])]
        exact ih
      · rw [if_pos (by simp [hk])]
        rw [lookupA_cons, if_neg hk]
        exact ih

theorem lookupA_delA_ne {nodes : Adjacency} {n m : ℕ} (h : m ≠ n) :
    lookupA (delA nodes n) m = lookupA nodes m := by
  induction nodes with
  | nil => rfl
  | cons p rest ih =>
      obtain ⟨k, v⟩ := p
      unfold delA
      rw [List.filter_cons]
      by_cases hk : k = n
      · have hkm : k ≠ m := fun hkm => h (hkm ▸ hk)
        rw [if_neg (by simp [hk]), lookupA_cons, if_neg hkm]
        exact ih
      · rw [if_pos (by simp [hk]), lookupA_cons, lookupA_cons]
        by_cases hkm : k = m
        · rw [if_pos hkm, if_pos hkm]
        · rw [if_neg hkm, if_neg hkm]
          exact ih

theorem lookupA_append_of_none {l1 : Adjacency} {m : ℕ}
    (h : lookupA l1 m = none) (l2 : Adjacency) :
    lookupA (l1 ++ l2) m = lookupA l2 m := by
  induction l1 with
  | nil => rfl
  | cons p rest ih =>
      obtain ⟨k, v⟩ := p
      rw [lookupA_cons] at h
      rw [List.cons_append, lookupA_cons]
      by_cases hk : k = m
      · rw [if_pos hk] at h; cases h
      · rw [if_neg hk] at h ⊢
        exact ih h

theorem lookupA_append_left {l1 : Adjacency} {m : ℕ} {l : List Resistor}
    (h : lookupA l1 m = some l) (l2 : Adjacency) :
    lookupA (l1 ++ l2) m = some l := by
  induction l1 with
  | nil => cases h
  | cons p rest ih =>
      obtain ⟨k, v⟩ := p
      rw [lookupA_cons] at h
      rw [List.cons_append, lookupA_cons]
      by_cases hk : k = m
      · rw [if_pos hk] at h ⊢
        exact h
      · rw [if_neg hk] at h ⊢
        exact ih h

theorem lookupA_addAdjA_self (nodes : Adjacency) (n : ℕ) (res : Resistor) :
    lookupA (addAdjA nodes n res) n = some (adjOf nodes n ++ [res]) := by
  unfold addAdjA adjOf
  cases hx : lookupA nodes n with
  | some l =>
      rw [lookupA_setA_self _ (by rw [hx]; rfl)]
      rfl
  | none =>
      rw [lookupA_append_of_none hx, lookupA_cons, if_pos rfl]
      rfl

theorem lookupA_addAdjA_ne {nodes : Adjacency} {n m : ℕ} (res : Resistor)
    (h : m ≠ n) : lookupA (addAdjA nodes n res) m = lookupA nodes m := by
  unfold addAdjA
  cases hx : lookupA nodes n with
  | some l => exact lookupA_setA_ne _ h
  | none =>
      cases hm : lookupA nodes m with
      | some lm => rw [lookupA_append_left hm]
      | none =>
          rw [lookupA_append_of_none hm, lookupA_cons,
            if_neg (fun hnm => h hnm.symm)]
          rfl

/-! ### Lemmas on removeFirstReq and nodeRemoveStep -/

theorem removeFirstReq_isSome {l : List Resistor} {x : Resistor} :
    (removeFirstReq l x).isSome = true ↔ memReq l x := by
  induction l with
  | nil => simp [removeFirstReq, memReq]
  | cons y ys ih =>
      unfold removeFirstReq
      rw [memReq_cons]
      by_cases hy : req y x
      · simp [hy]
      · rw [if_neg hy]
        rw [Option.isSome_map']
        rw [ih]
        constructor
        · exact Or.inr
        · rintro (hyx | hmem)
          · exact absurd hyx hy
          · exact hmem

theorem countReq_removeFirstReq {l l' : List Resistor} {x : Resistor}
    (h : removeFirstReq l x = some l') (s : Resistor) :
    (req x s → countReq l s = countReq l' s + 1) ∧
      (¬ req x s → countReq l' s = countReq l s) := by
  induction l generalizing l' with
  | nil => cases h
  | cons y ys ih =>
      unfold removeFirstReq at h
      by_cases hy : req y x
      · rw [if_pos hy] at h
        cases h
        constructor
        · intro hxs
          have hys : req y s := req_trans hy hxs
          unfold countReq
          rw [List.countP_cons, decide_eq_true hys]
          simp
        · intro hxs
          have hys : ¬ req y s := fun hys =>
            hxs (req_trans (req_symm hy) hys)
          unfold countReq
          rw [List.countP_cons, decide_eq_false hys]
          simp
      · rw [if_neg hy] at h
        cases hrec : removeFirstReq ys x with
        | none => rw [hrec] at h; cases h
        | some ys' =>
            rw [hrec] at h
            cases h
            obtain ⟨ih1, ih2⟩ := ih hrec
            constructor
            · intro hxs
              unfold countReq at ih1 ⊢
              rw [List.countP_cons, List.countP_cons, ih1 hxs]
              omega
            · intro hxs
              unfold countReq at ih2 ⊢
              rw [List.countP_cons, List.countP_cons, ih2 hxs]

theorem nodeRemoveStep_spec {nodes : Adjacency} {n : ℕ} {res : Resistor}
    {nodes' : Adjacency} (h : nodeRemoveStep nodes n res = some nodes') :
    ∃ l l', lookupA nodes n = some l ∧ removeFirstReq l res = some l' ∧
      (lookupA nodes' n = if l' = [] then none else some l') ∧
      ∀ m, m ≠ n → lookupA nodes' m = lookupA nodes m := by
  unfold nodeRemoveStep at h
  simp only [Option.bind_eq_bind, Option.bind_eq_some] at h
  obtain ⟨l, hl, l', hl', hout⟩ := h
  simp only [Option.pure_def, Option.some_inj] at hout
  refine ⟨l, l', hl, hl', ?_, ?_⟩
  · subst hout
    by_cases he : l' = []
    · rw [if_pos he, if_pos (by simp [he])]
      exact lookupA_delA_self nodes n
    · rw [if_neg he, if_neg (by simp [he])]
      exact lookupA_setA_self _ (by rw [hl]; rfl)
  · intro m hm
    subst hout
    by_cases he : l'.isEmpty
    · rw [if_pos he]
      exact lookupA_delA_ne hm
    · rw [if_neg he]
      exact lookupA_setA_ne _ hm

/-! ### Claim C10: prune_dangling raises on a two-node dead branch -/

/-- C10: on the graph holding one resistor between the non-terminal
degree-1 nodes 0 and 1, `prune_dangling` fails with a missing-key
lookup (`none`): processing node 0 removes the resistor, which deletes
both adjacency entries, and the stale snapshot then looks up node 1. -/
theorem claim10_prune_dangling_raises :
    danglingNet.prune_dangling = none ∧
      danglingNet.remove ⟨1, 0, 1⟩ =
        some { nodes := [], resistors := [], terminals := [] } ∧
      danglingNet.terminals = [] := by
  decide

/-! ### Claim C9: find_parallel -/

/-- C9 counterexample: querying `find_parallel` for the terminal pair
(2, 0) on a network whose terminal 2 has no incident resistor raises
KeyError (`none`) instead of returning an empty sequence. -/
theorem claim9_counterexample :
    openNet.find_parallel 2 0 = none ∧ 2 ∈ openNet.terminals := by
  decide

/-- C9 (amended): when `n1` has an adjacency entry `l`, `find_parallel`
succeeds and returns exactly the resistors of `l` whose endpoint set is
`{n1, n2}`; when `n1` has no adjacency entry it raises KeyError instead
of returning an empty sequence. -/
theorem claim9_find_parallel (net : RNetwork) (n1 n2 : ℕ)
    (l : List Resistor) (hinc : AdjInc net) (hne : n1 ≠ n2)
    (hl : lookupA net.nodes n1 = some l) :
    (net.find_parallel n1 n2).isSome = true ∧
      ∀ res, net.find_parallel n1 n2 = some res →
        ∀ r, r ∈ res ↔ (r ∈ l ∧ r.fnodes = ({n1, n2} : Finset ℕ)) := by
  have hfp : net.find_parallel n1 n2 =
      some (l.filter (fun r => decide (n2 = r.n1) || decide (n2 = r.n2))) := by
    unfold RNetwork.find_parallel
    rw [hl]
    rfl
  refine ⟨by rw [hfp]; rfl, ?_⟩
  intro res hres r
  rw [hfp] at hres
  cases hres
  rw [List.mem_filter]
  constructor
  · rintro ⟨hrl, hp⟩
    refine ⟨hrl, ?_⟩
    have hn1 : n1 = r.n1 ∨ n1 = r.n2 :=
      hinc (n1, l) (lookupA_mem hl) r hrl
    have hn2 : n2 = r.n1 ∨ n2 = r.n2 := by
      rcases Bool.or_eq_true_iff.mp hp with h2 | h2
      · exact Or.inl (of_decide_eq_true h2)
      · exact Or.inr (of_decide_eq_true h2)
    have hsub : ({n1, n2} : Finset ℕ) ⊆ r.fnodes := by
      intro a ha
      rcases Finset.mem_insert.mp ha with rfl | ha
      · rcases hn1 with h | h
        · exact h ▸ Finset.mem_insert_self _ _
        · exact h ▸ Finset.mem_insert_of_mem (Finset.mem_singleton_self _)
      · rw [Finset.mem_singleton] at ha
        subst ha
        rcases hn2 with h | h
        · exact h ▸ Finset.mem_insert_self _ _
        · exact h ▸ Finset.mem_insert_of_mem (Finset.mem_singleton_self _)
    have hcard : r.fnodes.card ≤ ({n1, n2} : Finset ℕ).card := by
      rw [Finset.card_insert_of_not_mem (by simpa using hne),
        Finset.card_singleton]
      unfold Resistor.fnodes
      exact le_trans (Finset.card_insert_le _ _) (by simp)
    exact (Finset.eq_of_subset_of_card_le hsub hcard).symm
  · rintro ⟨hrl, hset⟩
    refine ⟨hrl, ?_⟩
    have hn2 : n2 ∈ r.fnodes := by
      rw [hset]
      exact Finset.mem_insert_of_mem (Finset.mem_singleton_self _)
    unfold Resistor.fnodes at hn2
    rcases Finset.mem_insert.mp hn2 with h | h
    · exact Bool.or_eq_true_iff.mpr (Or.inl (decide_eq_true h))
    · rw [Finset.mem_singleton] at h
      exact Bool.or_eq_true_iff.mpr (Or.inr (decide_eq_true h))

/-- C9 witness: on the three-branch parallel network, querying the pair
(0, 1) returns all three branches; in particular the 4Ω branch is
reported because its endpoint set is `{0, 1}`. -/
theorem claim9_witness :
    (parNet.find_parallel 0 1).isSome = true ∧
      ((⟨4, 0, 1⟩ : Resistor) ∈
          ([⟨4, 0, 1⟩, ⟨8, 1, 0⟩, ⟨8, 0, 1⟩] : List Resistor) ↔
        ((⟨4, 0, 1⟩ : Resistor) ∈
            ([⟨4, 0, 1⟩, ⟨8, 1, 0⟩, ⟨8, 0, 1⟩] : List Resistor) ∧
          (⟨4, 0, 1⟩ : Resistor).fnodes = ({0, 1} : Finset ℕ))) :=
  ⟨(claim9_find_parallel parNet 0 1 [⟨4, 0, 1⟩, ⟨8, 1, 0⟩, ⟨8, 0, 1⟩]
      (by decide) (by decide) (by decide)).1,
    (claim9_find_parallel parNet 0 1 [⟨4, 0, 1⟩, ⟨8, 1, 0⟩, ⟨8, 0, 1⟩]
      (by decide) (by decide) (by decide)).2
      [⟨4, 0, 1⟩, ⟨8, 1, 0⟩, ⟨8, 0, 1⟩] (by decide) ⟨4, 0, 1⟩⟩

/-! ### Claim C7: free_node -/

/-- C7 counterexample: after the history add (0,2), add (0,1),
remove (0,2), the allocated free node is 2 even though 2 appeared as a
node of the graph earlier in the history (and was removed): the source
only avoids *current* keys, counting from the current key count. -/
theorem claim7_counterexample :
    (reuseNet2.remove ⟨1, 0, 2⟩).map RNetwork.free_node = some 2 ∧
      2 ∈ nodeKeys reuseNet1 := by
  decide

theorem firstFreeFrom_spec (keys : List ℕ) :
    ∀ fuel start, (∀ k ∈ keys, k < start + fuel) →
      (firstFreeFrom keys fuel start ∉ keys ∧
        start ≤ firstFreeFrom keys fuel start ∧
        ∀ m, start ≤ m → m < firstFreeFrom keys fuel start → m ∈ keys) := by
  intro fuel
  induction fuel with
  | zero =>
      intro start hk
      unfold firstFreeFrom
      refine ⟨fun hmem => ?_, le_refl _, fun m hm1 hm2 => by omega⟩
      have := hk start hmem
      omega
  | succ fuel ih =>
      intro start hk
      unfold firstFreeFrom
      by_cases hs : start ∈ keys
      · rw [if_pos hs]
        obtain ⟨h1, h2, h3⟩ := ih (start + 1) (fun k hkk => by have := hk k hkk; omega)
        refine ⟨h1, by omega, ?_⟩
        intro m hm1 hm2
        rcases Nat.eq_or_lt_of_le hm1 with rfl | hlt
        · exact hs
        · exact h3 m hlt hm2
      · rw [if_neg hs]
        exact ⟨hs, le_refl _, fun m hm1 hm2 => by omega⟩

theorem le_foldr_max (keys : List ℕ) : ∀ k ∈ keys, k ≤ keys.foldr max 0 := by
  induction keys with
  | nil => intro k hk; cases hk
  | cons a rest ih =>
      intro k hk
      rcases List.mem_cons.mp hk with rfl | hk
      · exact le_max_left _ _
      · exact le_trans (ih k hk) (le_max_right _ _)

/-- C7 (amended): the identifier allocated by `free_node` is never a
*current* node key: it is the smallest identifier at least the current
key count that is not a current key.  (It may, as the counterexample
shows, coincide with an identifier that was a node earlier in the
history.) -/
theorem claim7_free_node (net : RNetwork) :
    net.free_node ∉ nodeKeys net ∧
      net.nodes.length ≤ net.free_node ∧
      ∀ m, net.nodes.length ≤ m → m < net.free_node → m ∈ nodeKeys net := by
  have hlen : (nodeKeys net).length = net.nodes.length := by
    unfold nodeKeys
    rw [List.length_map]
  have hk : ∀ k ∈ nodeKeys net,
      k < (nodeKeys net).length + ((nodeKeys net).foldr max 0 + 1) := by
    intro k hkk
    have := le_foldr_max (nodeKeys net) k hkk
    omega
  obtain ⟨h1, h2, h3⟩ := firstFreeFrom_spec (nodeKeys net)
    ((nodeKeys net).foldr max 0 + 1) (nodeKeys net).length hk
  exact ⟨h1, hlen ▸ h2, fun m hm1 hm2 => h3 m (hlen ▸ hm1) hm2⟩

/-- C7 witness: on the network with keys 1 and 2, the allocated node is
3 — not a current key, at least the key count 2, and 2 below it is a
current key. -/
theorem claim7_witness :
    gapNet.free_node ∉ nodeKeys gapNet ∧
      gapNet.nodes.length ≤ gapNet.free_node ∧
      2 ∈ nodeKeys gapNet :=
  ⟨(claim7_free_node gapNet).1, (claim7_free_node gapNet).2.1,
    (claim7_free_node gapNet).2.2 2 (by decide) (by decide)⟩

/-! ### Claim C6: convert_wye_to_delta -/

theorem mem_fnodes_iff {x : Resistor} {a : ℕ} :
    a ∈ x.fnodes ↔ a = x.n1 ∨ a = x.n2 := by
  unfold Resistor.fnodes
  rw [Finset.mem_insert, Finset.mem_singleton]

theorem mem_nodesList_iff {x : Resistor} {a : ℕ} :
    a ∈ x.nodesList ↔ a = x.n1 ∨ a = x.n2 := by
  unfold Resistor.nodesList
  simp

theorem fnodes_pair_cases {x : Resistor} {c m : ℕ}
    (h : x.fnodes = {c, m}) (hmc : m ≠ c) :
    (x.n1 = c ∧ x.n2 = m) ∨ (x.n1 = m ∧ x.n2 = c) := by
  have h1 : x.n1 = c ∨ x.n1 = m := by
    have : x.n1 ∈ x.fnodes := mem_fnodes_iff.mpr (Or.inl rfl)
    rw [h, Finset.mem_insert, Finset.mem_singleton] at this
    exact this
  have h2 : x.n2 = c ∨ x.n2 = m := by
    have : x.n2 ∈ x.fnodes := mem_fnodes_iff.mpr (Or.inr rfl)
    rw [h, Finset.mem_insert, Finset.mem_singleton] at this
    exact this
  have hcm : c ∈ x.fnodes := by
    rw [h]; exact Finset.mem_insert_self _ _
  have hmm : m ∈ x.fnodes := by
    rw [h]; exact Finset.mem_insert_of_mem (Finset.mem_singleton_self _)
  rw [mem_fnodes_iff] at hcm hmm
  rcases h1 with h1 | h1 <;> rcases h2 with h2 | h2
  · rcases hmm with hm | hm
    · exact absurd (hm.trans h1) hmc
    · exact absurd (hm.trans h2) hmc
  · exact Or.inl ⟨h1, h2⟩
  · exact Or.inr ⟨h1, h2⟩
  · rcases hcm with hc | hc
    · exact absurd (hc.trans h1).symm hmc
    · exact absurd (hc.trans h2).symm hmc

theorem otherthan_fnodes {x : Resistor} {c n : ℕ}
    (h : x.fnodes = {c, n}) (hne : n ≠ c) :
    otherthan c x.n1 x.n2 = some n := by
  rcases fnodes_pair_cases h hne with ⟨h1, h2⟩ | ⟨h1, h2⟩
  · unfold otherthan
    rw [if_pos h1.symm, h2]
  · unfold otherthan
    rw [if_neg (fun hc => hne (hc.trans h1).symm), if_pos h2.symm, h1]

theorem eq_singleton_of_unique_mem {l : List ℕ} {a : ℕ} (hnd : l.Nodup)
    (hmem : ∀ b, b ∈ l ↔ b = a) : l = [a] := by
  cases l with
  | nil => exact absurd ((hmem a).mpr rfl) (List.not_mem_nil a)
  | cons b rest =>
      have hb : b = a := (hmem b).mp (List.mem_cons_self _ _)
      subst hb
      have hrest : rest = [] := by
        cases rest with
        | nil => rfl
        | cons c rest' =>
            have hc : c = b :=
              (hmem c).mp (List.mem_cons_of_mem _ (List.mem_cons_self _ _))
            rw [List.nodup_cons] at hnd
            exact absurd (hc ▸ List.mem_cons_self c rest') hnd.1
      rw [hrest]

theorem remove_lookupA {net : RNetwork} {x : Resistor} {net' : RNetwork}
    (h : net.remove x = some net') {c m : ℕ}
    (hfn : x.fnodes = {c, m}) (hmc : m ≠ c) {l l' : List Resistor}
    (hl : lookupA net.nodes c = some l)
    (hrem : removeFirstReq l x = some l') :
    lookupA net'.nodes c = (if l' = [] then none else some l') := by
  unfold RNetwork.remove at h
  simp only [Option.bind_eq_bind, Option.bind_eq_some] at h
  obtain ⟨ns1, h1, ns2, h2, hnet⟩ := h
  simp only [Option.pure_def, Option.some_inj] at hnet
  have hnodes : net'.nodes = ns2 := by rw [← hnet]
  rcases fnodes_pair_cases hfn hmc with ⟨ho1, ho2⟩ | ⟨ho1, ho2⟩
  · -- x.n1 = c, x.n2 = m: the c-step happens first
    rw [ho1] at h1
    rw [ho2] at h2
    obtain ⟨la, la', hla, hla', hself1, _⟩ := nodeRemoveStep_spec h1
    rw [hl] at hla
    cases hla
    rw [hla'] at hrem
    cases hrem
    obtain ⟨lb, lb', _, _, _, hother2⟩ := nodeRemoveStep_spec h2
    rw [hnodes, hother2 c (fun hcm => hmc hcm.symm), hself1]
  · -- x.n1 = m, x.n2 = c: the m-step happens first
    rw [ho1] at h1
    rw [ho2] at h2
    obtain ⟨la, la', _, _, _, hother1⟩ := nodeRemoveStep_spec h1
    obtain ⟨lb, lb', hlb, hlb', hself2, _⟩ := nodeRemoveStep_spec h2
    rw [hother1 c (fun hcm => hmc hcm.symm), hl] at hlb
    cases hlb
    rw [hlb'] at hrem
    cases hrem
    rw [hnodes, hself2]

theorem lookupA_add_ne {net : RNetwork} {x : Resistor} {c : ℕ}
    (h1 : c ≠ x.n1) (h2 : c ≠ x.n2) :
    lookupA (net.add x).nodes c = lookupA net.nodes c := by
  show lookupA (addAdjA (addAdjA net.nodes x.n1 x) x.n2 x) c = _
  rw [lookupA_addAdjA_ne _ h2, lookupA_addAdjA_ne _ h1]

/-- C6: given three resistors forming a wye — a unique common endpoint
`center` and pairwise-distinct outer endpoints `n1, n2, n3` —
`convert_wye_to_delta` removes the three arms from the edge set, inserts
the three delta resistors with `rp = r1·r2 + r2·r3 + r3·r1` (namely
`rp/r1` between `n2,n3`, `rp/r2` between `n3,n1`, `rp/r3` between
`n1,n2`), and deletes the node `center` once its adjacency list (exactly
the three arms) is emptied. -/
theorem claim6_convert_wye_to_delta (net net' : RNetwork)
    (r1 r2 r3 : Resistor) (center n1 n2 n3 : ℕ)
    (hinv : SetInv net.resistors)
    (hf1 : r1.fnodes = {center, n1}) (hn1 : n1 ≠ center)
    (hf2 : r2.fnodes = {center, n2}) (hn2 : n2 ≠ center)
    (hf3 : r3.fnodes = {center, n3}) (hn3 : n3 ≠ center)
    (h12 : n1 ≠ n2) (_h23 : n2 ≠ n3) (_h13 : n1 ≠ n3)
    (h : net.convert_wye_to_delta r1 r2 r3 = some net') :
    (∀ s, memReq net'.resistors s ↔
      (req s ⟨(r1.r * r2.r + r2.r * r3.r + r3.r * r1.r) / r1.r, n2, n3⟩ ∨
        req s ⟨(r1.r * r2.r + r2.r * r3.r + r3.r * r1.r) / r2.r, n3, n1⟩ ∨
        req s ⟨(r1.r * r2.r + r2.r * r3.r + r3.r * r1.r) / r3.r, n1, n2⟩ ∨
        (memReq net.resistors s ∧
          ¬ (req s r1 ∨ req s r2 ∨ req s r3)))) ∧
      (∀ x1 x2 x3, lookupA net.nodes center = some [x1, x2, x3] →
        req x1 r1 → req x2 r2 → req x3 r3 →
        lookupA net'.nodes center = none) := by
  have hL : (r1.nodesList ∩ r2.nodesList ∩ r3.nodesList).dedup
      = [center] := by
    refine eq_singleton_of_unique_mem (List.nodup_dedup _) ?_
    intro b
    rw [List.mem_dedup, List.mem_inter_iff, List.mem_inter_iff,
      mem_nodesList_iff, mem_nodesList_iff, mem_nodesList_iff]
    constructor
    · rintro ⟨⟨hb1, hb2⟩, hb3⟩
      have hm1 : b ∈ r1.fnodes := mem_fnodes_iff.mpr hb1
      have hm2 : b ∈ r2.fnodes := mem_fnodes_iff.mpr hb2
      have hm3 : b ∈ r3.fnodes := mem_fnodes_iff.mpr hb3
      rw [hf1, Finset.mem_insert, Finset.mem_singleton] at hm1
      rw [hf2, Finset.mem_insert, Finset.mem_singleton] at hm2
      rw [hf3, Finset.mem_insert, Finset.mem_singleton] at hm3
      rcases hm1 with hm1 | hm1
      · exact hm1
      · rcases hm2 with hm2 | hm2
        · exact hm2
        · exact absurd (hm1 ▸ hm2 ▸ rfl) h12
    · rintro rfl
      have c1 : b ∈ r1.fnodes := by
        rw [hf1]; exact Finset.mem_insert_self _ _
      have c2 : b ∈ r2.fnodes := by
        rw [hf2]; exact Finset.mem_insert_self _ _
      have c3 : b ∈ r3.fnodes := by
        rw [hf3]; exact Finset.mem_insert_self _ _
      rw [mem_fnodes_iff] at c1 c2 c3
      exact ⟨⟨c1, c2⟩, c3⟩
  unfold RNetwork.convert_wye_to_delta at h
  rw [hL] at h
  simp only [List.length_singleton, List.head?_cons, eq_self_iff_true,
    if_true, Option.bind_eq_bind, Option.bind_eq_some] at h
  obtain ⟨c', hc', m1, hm1, m2, hm2, m3, hm3, netA, hA, netB, hB, netC,
    hC, hnet⟩ := h
  have hcc : c' = center := (Option.some.inj hc').symm
  rw [hcc] at hm1 hm2 hm3
  have em1 : m1 = n1 :=
    (Option.some.inj ((otherthan_fnodes hf1 hn1).symm.trans hm1)).symm
  have em2 : m2 = n2 :=
    (Option.some.inj ((otherthan_fnodes hf2 hn2).symm.trans hm2)).symm
  have em3 : m3 = n3 :=
    (Option.some.inj ((otherthan_fnodes hf3 hn3).symm.trans hm3)).symm
  have hw1 : (wye_to_delta r1.r r2.r r3.r).1 =
      (r1.r * r2.r + r2.r * r3.r + r3.r * r1.r) / r1.r := rfl
  have hw2 : (wye_to_delta r1.r r2.r r3.r).2.1 =
      (r1.r * r2.r + r2.r * r3.r + r3.r * r1.r) / r2.r := rfl
  have hw3 : (wye_to_delta r1.r r2.r r3.r).2.2 =
      (r1.r * r2.r + r2.r * r3.r + r3.r * r1.r) / r3.r := rfl
  rw [em1, em2, em3, hw1, hw2, hw3] at hnet
  have hnet' : net' =
      ((netC.add ⟨(r1.r * r2.r + r2.r * r3.r + r3.r * r1.r) / r1.r,
          n2, n3⟩).add
        ⟨(r1.r * r2.r + r2.r * r3.r + r3.r * r1.r) / r2.r, n3, n1⟩).add
        ⟨(r1.r * r2.r + r2.r * r3.r + r3.r * r1.r) / r3.r, n1, n2⟩ :=
    (Option.some.inj hnet).symm
  have hinvA : SetInv netA.resistors := by
    rw [remove_resistors hA]; exact hinv.discard r1
  have hinvB : SetInv netB.resistors := by
    rw [remove_resistors hB]; exact hinvA.discard r2
  constructor
  · intro s
    rw [hnet']
    rw [add_resistors, mem_setAddReq, add_resistors, mem_setAddReq,
      add_resistors, mem_setAddReq, remove_resistors hC,
      mem_discardReq hinvB, remove_resistors hB, mem_discardReq hinvA,
      remove_resistors hA, mem_discardReq hinv]
    tauto
  · intro x1 x2 x3 hcl hx1 hx2 hx3
    have hr1 : removeFirstReq [x1, x2, x3] r1 = some [x2, x3] := by
      simp [removeFirstReq, hx1]
    have hr2 : removeFirstReq [x2, x3] r2 = some [x3] := by
      simp [removeFirstReq, hx2]
    have hr3 : removeFirstReq [x3] r3 = some [] := by
      simp [removeFirstReq, hx3]
    have hA' : lookupA netA.nodes center = some [x2, x3] := by
      have hstep := remove_lookupA hA hf1 hn1 hcl hr1
      rw [hstep, if_neg (by simp)]
    have hB' : lookupA netB.nodes center = some [x3] := by
      have hstep := remove_lookupA hB hf2 hn2 hA' hr2
      rw [hstep, if_neg (by simp)]
    have hC' : lookupA netC.nodes center = none := by
      have hstep := remove_lookupA hC hf3 hn3 hB' hr3
      rw [hstep, if_pos rfl]
    rw [hnet']
    rw [lookupA_add_ne (fun hc => hn1 hc.symm) (fun hc => hn2 hc.symm),
      lookupA_add_ne (fun hc => hn3 hc.symm) (fun hc => hn1 hc.symm),
      lookupA_add_ne (fun hc => hn2 hc.symm) (fun hc => hn3 hc.symm)]
    exact hC'

/-- C6 witness: the 2Ω/4Ω/8Ω wye on center 3 becomes the 28Ω/14Ω/7Ω delta
on nodes 0, 1, 2, and node 3 disappears. -/
theorem claim6_witness :
    (memReq [(⟨28, 1, 2⟩ : Resistor), ⟨14, 2, 0⟩, ⟨7, 0, 1⟩] ⟨7, 0, 1⟩ ↔
      (req ⟨7, 0, 1⟩
          ⟨((2 : ℚ) * 4 + 4 * 8 + 8 * 2) / 2, 1, 2⟩ ∨
        req ⟨7, 0, 1⟩ ⟨((2 : ℚ) * 4 + 4 * 8 + 8 * 2) / 4, 2, 0⟩ ∨
        req ⟨7, 0, 1⟩ ⟨((2 : ℚ) * 4 + 4 * 8 + 8 * 2) / 8, 0, 1⟩ ∨
        (memReq wyeNet.resistors ⟨7, 0, 1⟩ ∧
          ¬ (req ⟨7, 0, 1⟩ ⟨2, 0, 3⟩ ∨ req ⟨7, 0, 1⟩ ⟨4, 1, 3⟩ ∨
            req ⟨7, 0, 1⟩ ⟨8, 2, 3⟩)))) ∧
      lookupA
        ([(1, [⟨28, 1, 2⟩, ⟨7, 0, 1⟩]), (2, [⟨28, 1, 2⟩, ⟨14, 2, 0⟩]),
          (0, [⟨14, 2, 0⟩, ⟨7, 0, 1⟩])] : Adjacency) 3 = none :=
  ⟨(claim6_convert_wye_to_delta wyeNet
      ⟨[(1, [⟨28, 1, 2⟩, ⟨7, 0, 1⟩]), (2, [⟨28, 1, 2⟩, ⟨14, 2, 0⟩]),
        (0, [⟨14, 2, 0⟩, ⟨7, 0, 1⟩])],
        [⟨28, 1, 2⟩, ⟨14, 2, 0⟩, ⟨7, 0, 1⟩], []⟩
      ⟨2, 0, 3⟩ ⟨4, 1, 3⟩ ⟨8, 2, 3⟩ 3 0 1 2
      (by decide) (by decide) (by decide) (by decide) (by decide)
      (by decide) (by decide) (by decide) (by decide) (by decide)
      (by with_unfolding_all rfl)).1 ⟨7, 0, 1⟩,
    (claim6_convert_wye_to_delta wyeNet
      ⟨[(1, [⟨28, 1, 2⟩, ⟨7, 0, 1⟩]), (2, [⟨28, 1, 2⟩, ⟨14, 2, 0⟩]),
        (0, [⟨14, 2, 0⟩, ⟨7, 0, 1⟩])],
        [⟨28, 1, 2⟩, ⟨14, 2, 0⟩, ⟨7, 0, 1⟩], []⟩
      ⟨2, 0, 3⟩ ⟨4, 1, 3⟩ ⟨8, 2, 3⟩ 3 0 1 2
      (by decide) (by decide) (by decide) (by decide) (by decide)
      (by decide) (by decide) (by decide) (by decide) (by decide)
      (by with_unfolding_all rfl)).2
      ⟨2, 0, 3⟩ ⟨4, 1, 3⟩ ⟨8, 2, 3⟩ (by decide) (by decide) (by decide)
      (by decide)⟩

/-! ### Claim C2: the edges/adjacency invariant -/

theorem countReq_concat (l : List Resistor) (x s : Resistor) :
    countReq (l ++ [x]) s = countReq l s + (if req x s then 1 else 0) := by
  rw [countReq_append]
  congr 1
  unfold countReq
  by_cases hx : req x s
  · rw [if_pos hx]
    simp [hx]
  · rw [if_neg hx]
    simp [hx]

theorem adjOf_addAdjA_self (nodes : Adjacency) (n : ℕ) (res : Resistor) :
    adjOf (addAdjA nodes n res) n = adjOf nodes n ++ [res] := by
  unfold adjOf
  rw [lookupA_addAdjA_self]
  rfl

theorem adjOf_addAdjA_ne {nodes : Adjacency} {n m : ℕ} (res : Resistor)
    (h : m ≠ n) : adjOf (addAdjA nodes n res) m = adjOf nodes m := by
  unfold adjOf
  rw [lookupA_addAdjA_ne _ h]

theorem cnt_add_n1 (net : RNetwork) (x s : Resistor) (hne : x.n1 ≠ x.n2) :
    cnt (net.add x) s x.n1 = cnt net s x.n1 + (if req x s then 1 else 0) := by
  show countReq (adjOf (addAdjA (addAdjA net.nodes x.n1 x) x.n2 x) x.n1) s = _
  rw [adjOf_addAdjA_ne _ hne, adjOf_addAdjA_self, countReq_concat]
  rfl

theorem cnt_add_n2 (net : RNetwork) (x s : Resistor) (hne : x.n1 ≠ x.n2) :
    cnt (net.add x) s x.n2 = cnt net s x.n2 + (if req x s then 1 else 0) := by
  show countReq (adjOf (addAdjA (addAdjA net.nodes x.n1 x) x.n2 x) x.n2) s = _
  rw [adjOf_addAdjA_self, adjOf_addAdjA_ne _ (fun hh => hne hh.symm),
    countReq_concat]
  rfl

theorem cnt_add_of_ne (net : RNetwork) {x : Resistor} (s : Resistor) {m : ℕ}
    (hm1 : m ≠ x.n1) (hm2 : m ≠ x.n2) :
    cnt (net.add x) s m = cnt net s m := by
  show countReq (adjOf (addAdjA (addAdjA net.nodes x.n1 x) x.n2 x) m) s = _
  rw [adjOf_addAdjA_ne _ hm2, adjOf_addAdjA_ne _ hm1]
  rfl

theorem cnt_remove {net : RNetwork} {x : Resistor} {net' : RNetwork}
    (h : net.remove x = some net') (hne : x.n1 ≠ x.n2) (s : Resistor) :
    cnt net' s x.n1 + (if req x s then 1 else 0) = cnt net s x.n1 ∧
      cnt net' s x.n2 + (if req x s then 1 else 0) = cnt net s x.n2 ∧
      ∀ m, m ≠ x.n1 → m ≠ x.n2 → cnt net' s m = cnt net s m := by
  unfold RNetwork.remove at h
  simp only [Option.bind_eq_bind, Option.bind_eq_some] at h
  obtain ⟨ns1, h1, ns2, h2, hnet⟩ := h
  simp only [Option.pure_def, Option.some_inj] at hnet
  have hnodes : net'.nodes = ns2 := by rw [← hnet]
  obtain ⟨l1, l1', hl1, hl1', hself1, hother1⟩ := nodeRemoveStep_spec h1
  obtain ⟨l2, l2', hl2, hl2', hself2, hother2⟩ := nodeRemoveStep_spec h2
  have ha1 : adjOf net.nodes x.n1 = l1 := by
    unfold adjOf
    rw [hl1]
    rfl
  have ha1' : adjOf ns1 x.n1 = l1' := by
    unfold adjOf
    rw [hself1]
    by_cases he : l1' = []
    · rw [if_pos he, he]
      rfl
    · rw [if_neg he]
      rfl
  have hl2eq : lookupA ns1 x.n2 = lookupA net.nodes x.n2 :=
    hother1 x.n2 (fun hh => hne hh.symm)
  have ha2 : adjOf net.nodes x.n2 = l2 := by
    unfold adjOf
    rw [← hl2eq, hl2]
    rfl
  have ha2' : adjOf ns2 x.n2 = l2' := by
    unfold adjOf
    rw [hself2]
    by_cases he : l2' = []
    · rw [if_pos he, he]
      rfl
    · rw [if_neg he]
      rfl
  have ha1'' : adjOf ns2 x.n1 = l1' := by
    unfold adjOf
    rw [hother2 x.n1 hne]
    rw [← ha1']
    rfl
  refine ⟨?_, ?_, ?_⟩
  · show cnt net' s x.n1 + _ = _
    unfold cnt
    rw [hnodes, ha1'', ha1]
    by_cases hreq : req x s
    · rw [if_pos hreq, (countReq_removeFirstReq hl1' s).1 hreq]
    · rw [if_neg hreq, (countReq_removeFirstReq hl1' s).2 hreq]
      omega
  · unfold cnt
    rw [hnodes, ha2']
    have hcl2 := countReq_removeFirstReq hl2' s
    have hc2 : countReq (adjOf net.nodes x.n2) s = countReq l2 s := by
      rw [ha2]
    rw [hc2]
    by_cases hreq : req x s
    · rw [if_pos hreq, hcl2.1 hreq]
    · rw [if_neg hreq, hcl2.2 hreq]
      omega
  · intro m hm1 hm2
    unfold cnt
    rw [hnodes]
    unfold adjOf
    rw [hother2 m hm2, hother1 m hm1]

theorem req_endpoint_cases {x s : Resistor} (hreq : req x s)
    (hne : x.n1 ≠ x.n2) :
    (s.n1 = x.n1 ∧ s.n2 = x.n2) ∨ (s.n1 = x.n2 ∧ s.n2 = x.n1) :=
  fnodes_pair_cases (c := x.n1) (m := x.n2) hreq.2.symm
    (fun hmc => hne hmc.symm)

theorem cnt_congr {net : RNetwork} {x s : Resistor} (hreq : req x s)
    (m : ℕ) : cnt net s m = cnt net x m := by
  unfold cnt
  exact (countReq_congr hreq).symm

theorem C2Inv_add {net : RNetwork} {x : Resistor} (hinv : C2Inv net)
    (hne : x.n1 ≠ x.n2) (h1 : cnt net x x.n1 = 0)
    (h2 : cnt net x x.n2 = 0) : C2Inv (net.add x) := by
  obtain ⟨hset, hinv⟩ := hinv
  refine ⟨hset.setAdd x, ?_⟩
  intro s
  by_cases hreq : req x s
  · have hcs1 : cnt (net.add x) s x.n1 = 1 := by
      rw [cnt_add_n1 net x s hne, if_pos hreq, cnt_congr hreq, h1]
    have hcs2 : cnt (net.add x) s x.n2 = 1 := by
      rw [cnt_add_n2 net x s hne, if_pos hreq, cnt_congr hreq, h2]
    have hmem : memReq (net.add x).resistors s := by
      rw [add_resistors, mem_setAddReq]
      exact Or.inl (req_symm hreq)
    rcases req_endpoint_cases hreq hne with ⟨hs1, hs2⟩ | ⟨hs1, hs2⟩
    · rw [hs1, hs2]
      exact ⟨hcs1.trans hcs2.symm, le_of_eq hcs1, by rw [hcs1]; simp [hmem]⟩
    · rw [hs1, hs2]
      exact ⟨hcs2.trans hcs1.symm, le_of_eq hcs2, by rw [hcs2]; simp [hmem]⟩
  · have hc : ∀ m, cnt (net.add x) s m = cnt net s m := by
      intro m
      by_cases hm1 : m = x.n1
      · rw [hm1, cnt_add_n1 net x s hne, if_neg hreq]
        omega
      · by_cases hm2 : m = x.n2
        · rw [hm2, cnt_add_n2 net x s hne, if_neg hreq]
          omega
        · exact cnt_add_of_ne net s hm1 hm2

    obtain ⟨ha, hb, hcle⟩ := hinv s
    refine ⟨by rw [hc, hc]; exact ha, by rw [hc]; exact hb, ?_⟩
    rw [add_resistors, mem_setAddReq, hc]
    constructor
    · rintro (hsx | hm)
      · exact absurd (req_symm hsx) hreq
      · exact hcle.mp hm
    · intro h1'
      exact Or.inr (hcle.mpr h1')

theorem C2Inv_remove {net : RNetwork} {x : Resistor} {net' : RNetwork}
    (hinv : C2Inv net) (hne : x.n1 ≠ x.n2)
    (h : net.remove x = some net') : C2Inv net' := by
  obtain ⟨hset, hinv⟩ := hinv
  refine ⟨by rw [remove_resistors h]; exact hset.discard x, ?_⟩
  intro s
  obtain ⟨hr1, hr2, hrm⟩ := cnt_remove h hne s
  by_cases hreq : req x s
  · rw [if_pos hreq] at hr1 hr2
    obtain ⟨ha, hb, _⟩ := hinv s
    rcases req_endpoint_cases hreq hne with ⟨hs1, hs2⟩ | ⟨hs1, hs2⟩
    · have hb1 : cnt net s x.n1 ≤ 1 := by rw [← hs1]; exact hb
      have hb2 : cnt net s x.n2 ≤ 1 := by rw [← hs2, ← ha, hs1]; exact hb1
      have hz1 : cnt net' s x.n1 = 0 := by omega
      have hz2 : cnt net' s x.n2 = 0 := by omega
      rw [hs1, hs2]
      refine ⟨hz1.trans hz2.symm, by omega, ?_⟩
      rw [remove_resistors h, mem_discardReq hset]
      constructor
      · rintro ⟨_, hnx⟩
        exact absurd (req_symm hreq) hnx
      · intro hone
        rw [hz1] at hone
        cases hone
    · have hb1 : cnt net s x.n2 ≤ 1 := by rw [← hs1]; exact hb
      have hb2 : cnt net s x.n1 ≤ 1 := by rw [← hs2, ← ha, hs1]; exact hb1
      have hz1 : cnt net' s x.n1 = 0 := by omega
      have hz2 : cnt net' s x.n2 = 0 := by omega
      rw [hs1, hs2]
      refine ⟨hz2.trans hz1.symm, by omega, ?_⟩
      rw [remove_resistors h, mem_discardReq hset]
      constructor
      · rintro ⟨_, hnx⟩
        exact absurd (req_symm hreq) hnx
      · intro hone
        rw [hz2] at hone
        cases hone
  · rw [if_neg hreq] at hr1 hr2
    have hall : ∀ m, cnt net' s m = cnt net s m := by
      intro m
      by_cases hm1 : m = x.n1
      · rw [hm1]; omega
      · by_cases hm2 : m = x.n2
        · rw [hm2]; omega
        · exact hrm m hm1 hm2
    obtain ⟨ha, hb, hc⟩ := hinv s
    refine ⟨by rw [hall, hall]; exact ha, by rw [hall]; exact hb, ?_⟩
    rw [remove_resistors h, mem_discardReq hset, hall]
    constructor
    · rintro ⟨hm, _⟩
      exact hc.mp hm
    · intro h1'
      exact ⟨hc.mpr h1', fun hsx => hreq (req_symm hsx)⟩

theorem C2Inv_of_GReach {net : RNetwork} (h : GReach net) : C2Inv net := by
  induction h with
  | empty =>
      refine ⟨List.Pairwise.nil, ?_⟩
      intro s
      refine ⟨rfl, Nat.zero_le 1, ?_⟩
      constructor
      · rintro ⟨y, hy, _⟩
        cases hy
      · intro hc
        cases hc
  | step _ hstep ih =>
      cases hstep with
      | add x hne h1 h2 => exact C2Inv_add ih hne h1 h2
      | remove x net2 hne hrem => exact C2Inv_remove ih hne hrem

/-- C2 counterexample: after the caller adds `Resistor(2, 0, 1)` twice
(the spec's two-parallel-2Ω scenario), the resistor is in the edge set
yet appears twice — not exactly once — in node 0's adjacency list. -/
theorem claim2_counterexample :
    memReq dupNet.resistors ⟨2, 0, 1⟩ ∧ cnt dupNet ⟨2, 0, 1⟩ 0 = 2 := by
  decide

/-- C2 (amended): for every graph reachable from the empty graph by adds
of new two-ended resistors and successful removes, a resistor is in the
edge set iff it appears exactly once in the adjacency list of each of
its two endpoints. -/
theorem claim2_invariant (net : RNetwork) (h : GReach net) :
    ∀ s : Resistor, memReq net.resistors s ↔
      (cnt net s s.n1 = 1 ∧ cnt net s s.n2 = 1) := by
  obtain ⟨_, hinv⟩ := C2Inv_of_GReach h
  intro s
  obtain ⟨ha, _, hc⟩ := hinv s
  rw [hc, ← ha]
  exact ⟨fun h1 => ⟨h1, h1⟩, fun hh => hh.1⟩

/-- C2 witness: in the graph built by adding the 3Ω and 5Ω resistors,
the 3Ω resistor is in the edge set iff it occurs once at node 0 and once
at node 1 — and it does. -/
theorem claim2_witness :
    memReq ((RNetwork.empty.add ⟨3, 0, 1⟩).add ⟨5, 1, 2⟩).resistors
        ⟨3, 0, 1⟩ ↔
      (cnt ((RNetwork.empty.add ⟨3, 0, 1⟩).add ⟨5, 1, 2⟩) ⟨3, 0, 1⟩
          (⟨3, 0, 1⟩ : Resistor).n1 = 1 ∧
        cnt ((RNetwork.empty.add ⟨3, 0, 1⟩).add ⟨5, 1, 2⟩) ⟨3, 0, 1⟩
          (⟨3, 0, 1⟩ : Resistor).n2 = 1) :=
  claim2_invariant _
    (GReach.step
      (GReach.step GReach.empty
        (GStep.add _ ⟨3, 0, 1⟩ (by decide) (by decide) (by decide)))
      (GStep.add _ ⟨5, 1, 2⟩ (by decide) (by decide) (by decide)))
    ⟨3, 0, 1⟩

/-! ### Claim C8: find_series -/

theorem otherthan_mem {x y1 y2 z : ℕ} (h : otherthan x y1 y2 = some z) :
    z = y1 ∨ z = y2 := by
  unfold otherthan at h
  by_cases h1 : x = y1
  · rw [if_pos h1] at h
    exact Or.inr (Option.some.inj h).symm
  · rw [if_neg h1] at h
    by_cases h2 : x = y2
    · rw [if_pos h2] at h
      exact Or.inl (Option.some.inj h).symm
    · rw [if_neg h2] at h
      cases h

theorem usage_eq_some {net : RNetwork} {n u : ℕ} (h : net.usage n = some u) :
    ∃ l, lookupA net.nodes n = some l ∧
      u = l.length + (if n ∈ net.terminals then 1 else 0) := by
  unfold RNetwork.usage at h
  cases hl : lookupA net.nodes n with
  | none => rw [hl] at h; cases h
  | some l =>
      rw [hl] at h
      exact ⟨l, rfl, (Option.some.inj h).symm⟩

theorem fseries_fwd_post (net : RNetwork) :
    ∀ fuel (ret : List Resistor) (lastnode : ℕ)
      (out : List Resistor × ℕ),
      fseries_fwd net fuel ret lastnode = some out →
      ((net.usage out.2).isSome = true ∧
        (net.usage out.2 ≠ some 2 ∨ out.2 ∈ net.terminals) ∧
        (∀ x, out.1.getLast? = some x → out.2 = x.n1 ∨ out.2 = x.n2) ∧
        (ret ≠ [] → out.1 ≠ [])) := by
  intro fuel
  induction fuel with
  | zero => intro ret lastnode out h; cases h
  | succ fuel ih =>
      intro ret lastnode out h
      unfold fseries_fwd at h
      simp only [Option.bind_eq_bind, Option.bind_eq_some] at h
      obtain ⟨last, hlast, node, hnode, u, hu, hbody⟩ := h
      by_cases hcond : u ≠ 2 ∨ node ∈ net.terminals
      · rw [if_pos hcond] at hbody
        have hout : out = (ret, node) := (Option.some.inj hbody).symm
        subst hout

        refine ⟨by rw [hu]; rfl, ?_, ?_, fun hr => hr⟩
        · rcases hcond with hcu | hct
          · refine Or.inl ?_
            rw [hu]
            intro hh
            exact hcu (Option.some.inj hh)
          · exact Or.inr hct
        · intro x hx
          rw [hlast] at hx
          have hxl : x = last := Option.some.inj hx.symm
          subst hxl
          exact otherthan_mem hnode
      · rw [if_neg hcond] at hbody
        simp only [Option.bind_eq_bind, Option.bind_eq_some] at hbody
        obtain ⟨l, hl, hmatch⟩ := hbody
        match l with
        | [] => simp at hmatch
        | [a] => simp at hmatch
        | a :: b :: c :: t => simp at hmatch
        | [a, b] =>
            simp only [Option.bind_eq_bind, Option.bind_eq_some] at hmatch
            obtain ⟨nxt, _, hrec⟩ := hmatch
            obtain ⟨c1, c2, c3, _⟩ := ih _ _ _ hrec
            exact ⟨c1, c2, c3, fun _ => by
              have := ih _ _ _ hrec
              exact this.2.2.2 (by simp)⟩

theorem fseries_bwd_post (net : RNetwork) :
    ∀ fuel (ret : List Resistor) (firstnode : ℕ)
      (out : List Resistor × ℕ),
      fseries_bwd net fuel ret firstnode = some out →
      ((net.usage out.2).isSome = true ∧
        (net.usage out.2 ≠ some 2 ∨ out.2 ∈ net.terminals) ∧
        (∀ x, out.1.head? = some x → out.2 = x.n1 ∨ out.2 = x.n2) ∧
        (ret ≠ [] → out.1 ≠ []) ∧
        (ret ≠ [] → out.1.getLast? = ret.getLast?)) := by
  intro fuel
  induction fuel with
  | zero => intro ret firstnode out h; cases h
  | succ fuel ih =>
      intro ret firstnode out h
      unfold fseries_bwd at h
      simp only [Option.bind_eq_bind, Option.bind_eq_some] at h
      obtain ⟨first, hfirst, node, hnode, u, hu, hbody⟩ := h
      by_cases hcond : u ≠ 2 ∨ node ∈ net.terminals
      · rw [if_pos hcond] at hbody
        have hout : out = (ret, node) := (Option.some.inj hbody).symm
        subst hout
        refine ⟨by rw [hu]; rfl, ?_, ?_, fun hr => hr, fun _ => rfl⟩
        · rcases hcond with hcu | hct
          · refine Or.inl ?_
            rw [hu]
            intro hh
            exact hcu (Option.some.inj hh)
          · exact Or.inr hct
        · intro x hx
          rw [hfirst] at hx
          have hxl : x = first := Option.some.inj hx.symm
          subst hxl
          exact otherthan_mem hnode
      · rw [if_neg hcond] at hbody
        simp only [Option.bind_eq_bind, Option.bind_eq_some] at hbody
        obtain ⟨l, hl, hmatch⟩ := hbody
        match l with
        | [] => simp at hmatch
        | [a] => simp at hmatch
        | a :: b :: c :: t => simp at hmatch
        | [a, b] =>
            simp only [Option.bind_eq_bind, Option.bind_eq_some] at hmatch
            obtain ⟨prev, _, hrec⟩ := hmatch
            obtain ⟨c1, c2, c3, c4, c5⟩ := ih _ _ _ hrec
            refine ⟨c1, c2, c3, fun _ => c4 (by simp), ?_⟩
            intro hne
            rw [c5 (by simp)]
            cases hret : ret with
            | nil => exact absurd hret hne
            | cons rh rt => rw [List.getLast?_cons_cons]

theorem otherthan_symm {x y1 y2 z : ℕ} (h : otherthan x y1 y2 = some z) :
    otherthan z y1 y2 = some x := by
  unfold otherthan at h ⊢
  by_cases h1 : x = y1
  · rw [if_pos h1] at h
    have hz : z = y2 := (Option.some.inj h).symm
    by_cases hz1 : z = y1
    · rw [if_pos hz1]
      exact congrArg some ((hz.symm.trans hz1).trans h1.symm)
    · rw [if_neg hz1, if_pos hz, h1]
  · rw [if_neg h1] at h
    by_cases h2 : x = y2
    · rw [if_pos h2] at h
      have hz : z = y1 := (Option.some.inj h).symm
      rw [if_pos hz, h2]
    · rw [if_neg h2] at h
      cases h

theorem SeriesChain_cons {net : RNetwork} {r : Resistor}
    {rs : List Resistor} {a c b : ℕ}
    (h1 : otherthan a r.n1 r.n2 = some c) (h2 : Passthrough net c)
    (h3 : SeriesChain net rs c b) (hne : rs ≠ []) :
    SeriesChain net (r :: rs) a b := by
  cases rs with
  | nil => exact absurd rfl hne
  | cons r1 rest => exact ⟨c, h1, h2, h3⟩

theorem SeriesChain_append {net : RNetwork} :
    ∀ (rs : List Resistor) (a b : ℕ), SeriesChain net rs a b →
      Passthrough net b → ∀ (r : Resistor) (d : ℕ),
      otherthan b r.n1 r.n2 = some d → SeriesChain net (rs ++ [r]) a d := by
  intro rs
  induction rs with
  | nil =>
      intro a b hsc _ r d hod
      have hab : a = b := hsc
      show otherthan a r.n1 r.n2 = some d
      rw [hab]
      exact hod
  | cons r0 rest ih =>
      intro a b hsc hpt r d hod
      cases rest with
      | nil =>
          have h0 : otherthan a r0.n1 r0.n2 = some b := hsc
          exact ⟨b, h0, hpt, hod⟩
      | cons r1 rest2 =>
          obtain ⟨c, hc, hptc, hrest⟩ := hsc
          exact ⟨c, hc, hptc, ih c b hrest hpt r d hod⟩

theorem fseries_fwd_chain (net : RNetwork) :
    ∀ fuel (ret : List Resistor) (lastnode : ℕ)
      (out : List Resistor × ℕ) (a : ℕ),
      fseries_fwd net fuel ret lastnode = some out →
      ret ≠ [] →
      (∀ r, ret.getLast? = some r → ∀ d,
        otherthan lastnode r.n1 r.n2 = some d → SeriesChain net ret a d) →
      (SeriesChain net out.1 a out.2 ∧ (∀ s ∈ ret, s ∈ out.1) ∧
        out.1.head? = ret.head?) := by
  intro fuel
  induction fuel with
  | zero => intro ret lastnode out a h; cases h
  | succ fuel ih =>
      intro ret lastnode out a h hne hch
      unfold fseries_fwd at h
      simp only [Option.bind_eq_bind, Option.bind_eq_some] at h
      obtain ⟨last, hlast, node, hnode, u, hu, hbody⟩ := h
      by_cases hcond : u ≠ 2 ∨ node ∈ net.terminals
      · rw [if_pos hcond] at hbody
        have hout : out = (ret, node) := (Option.some.inj hbody).symm
        subst hout
        exact ⟨hch last hlast node hnode, fun s hs => hs, rfl⟩
      · rw [if_neg hcond] at hbody
        push_neg at hcond
        obtain ⟨hu2, hnt⟩ := hcond
        have hpt : Passthrough net node := ⟨by rw [hu, hu2], hnt⟩
        simp only [Option.bind_eq_bind, Option.bind_eq_some] at hbody
        obtain ⟨l, hl, hmatch⟩ := hbody
        match l with
        | [] => simp at hmatch
        | [r0] => simp at hmatch
        | r0 :: r1 :: r2 :: t => simp at hmatch
        | [r0, r1] =>
            simp only [Option.bind_eq_bind, Option.bind_eq_some] at hmatch
            obtain ⟨nxt, _, hrec⟩ := hmatch
            have hch' : ∀ r, (ret ++ [nxt]).getLast? = some r → ∀ d,
                otherthan node r.n1 r.n2 = some d →
                SeriesChain net (ret ++ [nxt]) a d := by
              intro r hr d hd
              have hrn : r = nxt := by
                rw [List.getLast?_concat] at hr
                exact (Option.some.inj hr).symm
              subst hrn
              exact SeriesChain_append ret a node
                (hch last hlast node hnode) hpt r d hd
            obtain ⟨c1, c2, c3⟩ := ih (ret ++ [nxt]) node out a hrec
              (by simp) hch'
            refine ⟨c1, fun s hs => c2 s (List.mem_append_left _ hs), ?_⟩
            rw [c3]
            cases ret with
            | nil => exact absurd rfl hne
            | cons rh rt => rfl

theorem fseries_bwd_chain (net : RNetwork) :
    ∀ fuel (ret : List Resistor) (firstnode : ℕ)
      (out : List Resistor × ℕ) (ln : ℕ),
      fseries_bwd net fuel ret firstnode = some out →
      ret ≠ [] →
      (∀ r, ret.head? = some r → ∀ c,
        otherthan firstnode r.n1 r.n2 = some c → SeriesChain net ret c ln) →
      (SeriesChain net out.1 out.2 ln ∧ ∀ s ∈ ret, s ∈ out.1) := by
  intro fuel
  induction fuel with
  | zero => intro ret firstnode out ln h; cases h
  | succ fuel ih =>
      intro ret firstnode out ln h hne hch
      unfold fseries_bwd at h
      simp only [Option.bind_eq_bind, Option.bind_eq_some] at h
      obtain ⟨first, hfirst, node, hnode, u, hu, hbody⟩ := h
      by_cases hcond : u ≠ 2 ∨ node ∈ net.terminals
      · rw [if_pos hcond] at hbody
        have hout : out = (ret, node) := (Option.some.inj hbody).symm
        subst hout
        exact ⟨hch first hfirst node hnode, fun s hs => hs⟩
      · rw [if_neg hcond] at hbody
        push_neg at hcond
        obtain ⟨hu2, hnt⟩ := hcond
        have hpt : Passthrough net node := ⟨by rw [hu, hu2], hnt⟩
        simp only [Option.bind_eq_bind, Option.bind_eq_some] at hbody
        obtain ⟨l, hl, hmatch⟩ := hbody
        match l with
        | [] => simp at hmatch
        | [r0] => simp at hmatch
        | r0 :: r1 :: r2 :: t => simp at hmatch
        | [r0, r1] =>
            simp only [Option.bind_eq_bind, Option.bind_eq_some] at hmatch
            obtain ⟨prev, _, hrec⟩ := hmatch
            have hch' : ∀ r, (prev :: ret).head? = some r → ∀ c,
                otherthan node r.n1 r.n2 = some c →
                SeriesChain net (prev :: ret) c ln := by
              intro r hr c hc
              have hrp : r = prev := (Option.some.inj hr).symm
              subst hrp
              exact SeriesChain_cons (otherthan_symm hc) hpt
                (hch first hfirst node hnode) hne
            obtain ⟨c1, c2⟩ := ih (prev :: ret) node out ln hrec
              (by simp) hch'
            exact ⟨c1, fun s hs => c2 s (List.mem_cons_of_mem _ hs)⟩

/-- C8 (amended): whenever `find_series` terminates, the chain is empty
iff `startnode` is no internal pass-through point (usage ≠ 2 or a
terminal), the empty result carries `startnode` as both boundaries, and
a non-empty chain is the maximal series chain through `startnode`
ordered from `firstNode` to `lastNode`: its resistors form a series path
from `fn` to `ln` whose every intermediate node is a non-terminal of
usage 2 (so `fn` and `ln` are the first stopping nodes reached in each
direction), it contains every resistor incident to `startnode`, and the
boundary nodes satisfy the stopping condition and are endpoints of the
first and last chain resistors. -/
theorem claim8_find_series (net : RNetwork) (hinc : AdjInc net)
    (fuel startnode : ℕ)
    (chain : List Resistor) (fn ln : ℕ)
    (h : net.find_series fuel startnode = some (chain, fn, ln)) :
    (chain = [] ↔
        (net.usage startnode ≠ some 2 ∨ startnode ∈ net.terminals)) ∧
      (chain = [] → fn = startnode ∧ ln = startnode) ∧
      (chain ≠ [] →
        ((net.usage fn).isSome = true ∧
          (net.usage fn ≠ some 2 ∨ fn ∈ net.terminals) ∧
          (net.usage ln).isSome = true ∧
          (net.usage ln ≠ some 2 ∨ ln ∈ net.terminals) ∧
          (∀ x, chain.head? = some x → fn = x.n1 ∨ fn = x.n2) ∧
          (∀ x, chain.getLast? = some x → ln = x.n1 ∨ ln = x.n2) ∧
          SeriesChain net chain fn ln ∧
          (∀ l0, lookupA net.nodes startnode = some l0 →
            ∀ s ∈ l0, s ∈ chain))) := by
  unfold RNetwork.find_series at h
  simp only [Option.bind_eq_bind, Option.bind_eq_some] at h
  obtain ⟨u, hu, hbody⟩ := h
  by_cases hcond : u ≠ 2 ∨ startnode ∈ net.terminals
  · rw [if_pos hcond] at hbody
    have hout := Option.some.inj hbody
    have hchain : chain = [] := by
      have := congrArg Prod.fst hout
      exact this.symm
    have hfn : fn = startnode := by
      have := congrArg (fun p => p.2.1) hout
      exact this.symm
    have hln : ln = startnode := by
      have := congrArg (fun p => p.2.2) hout
      exact this.symm
    subst hchain
    refine ⟨⟨fun _ => ?_, fun _ => rfl⟩, fun _ => ⟨hfn, hln⟩,
      fun hne => absurd rfl hne⟩
    rcases hcond with hcu | hct
    · refine Or.inl ?_
      rw [hu]
      intro hh
      exact hcu (Option.some.inj hh)
    · exact Or.inr hct
  · rw [if_neg hcond] at hbody
    push_neg at hcond
    obtain ⟨hu2, hnt⟩ := hcond
    simp only [Option.bind_eq_bind, Option.bind_eq_some] at hbody
    obtain ⟨ret0, hret0, p1, hfwd, p2, hbwd, hfin⟩ := hbody
    have hret0len : ret0.length = 2 := by
      obtain ⟨l0, hl0, hul⟩ := usage_eq_some hu
      rw [hret0] at hl0
      have hll : l0 = ret0 := Option.some.inj hl0.symm
      subst hll
      rw [if_neg hnt] at hul
      omega
    obtain ⟨x, y, hxy⟩ := List.length_eq_two.mp hret0len
    subst hxy
    have hret0ne : ([x, y] : List Resistor) ≠ [] := List.cons_ne_nil _ _
    obtain ⟨f1, f2, f3, f4⟩ :=
      fseries_fwd_post net fuel [x, y] startnode p1 hfwd
    obtain ⟨b1, b2, b3, b4, b5⟩ :=
      fseries_bwd_post net fuel p1.1 startnode p2 hbwd
    have hfin' := Option.some.inj hfin
    have hchain : chain = p2.1 := (congrArg Prod.fst hfin').symm
    have hfn : fn = p2.2 := (congrArg (fun p => p.2.1) hfin').symm
    have hln : ln = p1.2 := (congrArg (fun p => p.2.2) hfin').symm
    have hp1ne : p1.1 ≠ [] := f4 hret0ne
    have hchne : chain ≠ [] := by
      rw [hchain]
      exact b4 hp1ne
    have hsx : startnode = x.n1 ∨ startnode = x.n2 :=
      hinc (startnode, [x, y]) (lookupA_mem hret0) x (List.mem_cons_self _ _)
    obtain ⟨a, ha⟩ : ∃ a, otherthan startnode x.n1 x.n2 = some a := by
      unfold otherthan
      by_cases h1 : startnode = x.n1
      · rw [if_pos h1]
        exact ⟨x.n2, rfl⟩
      · rcases hsx with h1' | h2
        · exact absurd h1' h1
        · rw [if_neg h1, if_pos h2]
          exact ⟨x.n1, rfl⟩
    have hpt : Passthrough net startnode := ⟨by rw [hu, hu2], hnt⟩
    have hchF : ∀ r, ([x, y] : List Resistor).getLast? = some r → ∀ d,
        otherthan startnode r.n1 r.n2 = some d →
        SeriesChain net [x, y] a d := by
      intro r hr d hd
      have h2 : ([x, y] : List Resistor).getLast? = some y := rfl
      rw [h2] at hr
      have hry : r = y := (Option.some.inj hr).symm
      subst hry
      exact ⟨startnode, otherthan_symm ha, hpt, hd⟩
    obtain ⟨cF, cFmem, cFhead⟩ :=
      fseries_fwd_chain net fuel [x, y] startnode p1 a hfwd hret0ne hchF
    have hchB : ∀ r, p1.1.head? = some r → ∀ c,
        otherthan startnode r.n1 r.n2 = some c →
        SeriesChain net p1.1 c p1.2 := by
      intro r hr c hc
      have h2 : ([x, y] : List Resistor).head? = some x := rfl
      rw [cFhead, h2] at hr
      have hrx : r = x := (Option.some.inj hr).symm
      subst hrx
      have hca : a = c := Option.some.inj (ha.symm.trans hc)
      subst hca
      exact cF
    obtain ⟨cB, cBmem⟩ :=
      fseries_bwd_chain net fuel p1.1 startnode p2 p1.2 hbwd hp1ne hchB
    refine ⟨⟨fun hh => absurd hh hchne, fun hh => ?_⟩,
      fun hh => absurd hh hchne, fun _ => ?_⟩
    · rcases hh with hh | hh
      · exact absurd (by rw [hu, hu2]) hh
      · exact absurd hh hnt
    · subst hchain
      subst hfn
      subst hln
      refine ⟨b1, b2, f1, f2, b3, ?_, cB, ?_⟩
      · intro x hx
        rw [b5 hp1ne] at hx
        exact f3 x hx
      · intro l0 hl0 s hs
        have hl0' : l0 = [x, y] :=
          (Option.some.inj (hret0.symm.trans hl0)).symm
        rw [hl0'] at hs
        exact cBmem s (cFmem s hs)

/-- C8 counterexample: on the triangle of 1Ω resistors over the
non-terminal usage-2 nodes 0, 1, 2 — exactly the cycle case the claim
asserts to terminate — `find_series(0)` diverges: the walk never meets
its exit condition, so no fuel yields a result. -/
theorem claim8_counterexample :
    FindSeriesDiverges cycleNet 0 ∧ cycleNet.usage 0 = some 2 ∧
      cycleNet.usage 1 = some 2 ∧ cycleNet.usage 2 = some 2 ∧
      cycleNet.terminals = [] := by
  have hfwd : ∀ fuel (ret : List Resistor) (lastnode : ℕ),
      ((lastnode = 0 ∧ ret.getLast? = some ⟨1, 2, 0⟩) ∨
        (lastnode = 2 ∧ ret.getLast? = some ⟨1, 1, 2⟩) ∨
        (lastnode = 1 ∧ ret.getLast? = some ⟨1, 0, 1⟩)) →
      fseries_fwd cycleNet fuel ret lastnode = none := by
    intro fuel
    induction fuel with
    | zero => intro ret lastnode _; rfl
    | succ fuel ih =>
        intro ret lastnode hstate
        rcases hstate with ⟨rfl, hlast⟩ | ⟨rfl, hlast⟩ | ⟨rfl, hlast⟩
        · have hstep : fseries_fwd cycleNet (fuel + 1) ret 0 =
              fseries_fwd cycleNet fuel (ret ++ [⟨1, 1, 2⟩]) 2 := by
            conv_lhs => rw [fseries_fwd]
            rw [hlast]
            rfl
          rw [hstep]
          exact ih _ _ (Or.inr (Or.inl ⟨rfl, List.getLast?_concat _⟩))
        · have hstep : fseries_fwd cycleNet (fuel + 1) ret 2 =
              fseries_fwd cycleNet fuel (ret ++ [⟨1, 0, 1⟩]) 1 := by
            conv_lhs => rw [fseries_fwd]
            rw [hlast]
            rfl
          rw [hstep]
          exact ih _ _ (Or.inr (Or.inr ⟨rfl, List.getLast?_concat _⟩))
        · have hstep : fseries_fwd cycleNet (fuel + 1) ret 1 =
              fseries_fwd cycleNet fuel (ret ++ [⟨1, 2, 0⟩]) 0 := by
            conv_lhs => rw [fseries_fwd]
            rw [hlast]
            rfl
          rw [hstep]
          exact ih _ _ (Or.inl ⟨rfl, List.getLast?_concat _⟩)
  refine ⟨?_, by decide, by decide, by decide, by decide⟩
  intro fuel
  have hpref : cycleNet.find_series fuel 0 =
      (fseries_fwd cycleNet fuel [⟨1, 0, 1⟩, ⟨1, 2, 0⟩] 0).bind
        (fun p => (fseries_bwd cycleNet fuel p.1 0).bind
          (fun q => some (q.1, q.2, p.2))) := rfl
  rw [hpref, hfwd fuel [⟨1, 0, 1⟩, ⟨1, 2, 0⟩] 0 (Or.inl ⟨rfl, rfl⟩)]
  rfl

/-- C8 witness: on the 3Ω + 5Ω chain with terminals 0 and 2, the walk
from node 1 terminates with the full chain between boundaries 0 and 2,
which are terminals of usage 2, incident to the first and last chain
resistors; the chain is a series path from 0 to 2 with pass-through
interior and contains every resistor incident to the start node 1. -/
theorem claim8_witness :
    (([(⟨3, 0, 1⟩ : Resistor), ⟨5, 1, 2⟩] : List Resistor) = [] ↔
        (chainNet.usage 1 ≠ some 2 ∨ 1 ∈ chainNet.terminals)) ∧
      ((chainNet.usage 0).isSome = true ∧
        (chainNet.usage 0 ≠ some 2 ∨ 0 ∈ chainNet.terminals) ∧
        (chainNet.usage 2).isSome = true ∧
        (chainNet.usage 2 ≠ some 2 ∨ 2 ∈ chainNet.terminals) ∧
        (∀ x, ([(⟨3, 0, 1⟩ : Resistor), ⟨5, 1, 2⟩] :
            List Resistor).head? = some x → 0 = x.n1 ∨ 0 = x.n2) ∧
        (∀ x, ([(⟨3, 0, 1⟩ : Resistor), ⟨5, 1, 2⟩] :
            List Resistor).getLast? = some x → 2 = x.n1 ∨ 2 = x.n2) ∧
        SeriesChain chainNet [⟨3, 0, 1⟩, ⟨5, 1, 2⟩] 0 2 ∧
        (∀ l0, lookupA chainNet.nodes 1 = some l0 → ∀ s ∈ l0,
          s ∈ ([(⟨3, 0, 1⟩ : Resistor), ⟨5, 1, 2⟩] : List Resistor))) :=
  ⟨(claim8_find_series chainNet (by decide) 10 1 [⟨3, 0, 1⟩, ⟨5, 1, 2⟩] 0 2
      (by decide)).1,
    (claim8_find_series chainNet (by decide) 10 1 [⟨3, 0, 1⟩, ⟨5, 1, 2⟩] 0 2
      (by decide)).2.2 (by decide)⟩

/-! ### Claim C3: terminal preservation -/

theorem join_parallel_terminals {net : RNetwork} {branches : List Resistor}
    {net' : RNetwork} (h : net.join_parallel branches = some net') :
    net'.terminals = net.terminals := by
  unfold RNetwork.join_parallel at h
  by_cases hlen : branches.length = 1
  · rw [if_pos hlen] at h
    rw [← Option.some.inj h]
  · rw [if_neg hlen] at h
    cases hlast : branches.getLast? with
    | none => rw [hlast] at h; cases h
    | some last =>
        rw [hlast] at h
        simp only [Option.bind_eq_bind, Option.bind_eq_some] at h
        obtain ⟨net1, hrem, hadd⟩ := h
        rw [← Option.some.inj hadd, add_terminals,
          removeAll_terminals hrem]

theorem join_series_terminals {net : RNetwork} {rs : List Resistor}
    {a b : ℕ} {net' : RNetwork} (h : net.join_series rs a b = some net') :
    net'.terminals = net.terminals := by
  unfold RNetwork.join_series at h
  simp only [Option.bind_eq_bind, Option.bind_eq_some] at h
  obtain ⟨net1, hrem, hadd⟩ := h
  rw [← Option.some.inj hadd, add_terminals, removeAll_terminals hrem]

theorem pruneDanglingGo_terminals : ∀ (keys : List ℕ) (net net' : RNetwork),
    pruneDanglingGo keys net = some net' →
    net'.terminals = net.terminals := by
  intro keys
  induction keys with
  | nil =>
      intro net net' h
      rw [← Option.some.inj h]
  | cons k rest ih =>
      intro net net' h
      unfold pruneDanglingGo at h
      simp only [Option.bind_eq_bind, Option.bind_eq_some] at h
      obtain ⟨l, hl, hbody⟩ := h
      by_cases hc : k ∉ net.terminals ∧ l.length = 1
      · rw [if_pos hc] at hbody
        cases hhd : l.head? with
        | none => rw [hhd] at hbody; cases hbody
        | some r =>
            rw [hhd] at hbody
            simp only [Option.bind_eq_bind, Option.bind_eq_some] at hbody
            obtain ⟨net1, hrem, hrec⟩ := hbody
            rw [ih net1 net' hrec, remove_terminals hrem]
      · rw [if_neg hc] at hbody
        exact ih net net' hbody

theorem prune_dangling_terminals {net net' : RNetwork}
    (h : net.prune_dangling = some net') :
    net'.terminals = net.terminals :=
  pruneDanglingGo_terminals (nodeKeys net) net net' h

theorem solveSeriesGo_terminals (fuel : ℕ) :
    ∀ (keys : List ℕ) (net : RNetwork) (b : Bool) (out : RNetwork × Bool),
    solveSeriesGo fuel keys net b = some out →
    out.1.terminals = net.terminals := by
  intro keys
  induction keys with
  | nil =>
      intro net b out h
      rw [← Option.some.inj h]
  | cons k rest ih =>
      intro net b out h
      unfold solveSeriesGo at h
      by_cases hnone : (lookupA net.nodes k).isNone
      · rw [if_pos hnone] at h
        exact ih net b out h
      · rw [if_neg hnone] at h
        simp only [Option.bind_eq_bind, Option.bind_eq_some] at h
        obtain ⟨t, hfs, hbody⟩ := h
        by_cases hemp : t.1.isEmpty
        · rw [if_pos hemp] at hbody
          exact ih net b out hbody
        · rw [if_neg hemp] at hbody
          simp only [Option.bind_eq_bind, Option.bind_eq_some] at hbody
          obtain ⟨net1, hjs, hrec⟩ := hbody
          rw [ih net1 true out hrec, join_series_terminals hjs]

theorem solve_series_terminals {net : RNetwork} {fuel : ℕ}
    {out : RNetwork × Bool} (h : net.solve_series fuel = some out) :
    out.1.terminals = net.terminals :=
  solveSeriesGo_terminals fuel (nodeKeys net) net false out h

theorem solveParallelGo_terminals :
    ∀ (rs : List Resistor) (net : RNetwork) (b : Bool)
      (out : RNetwork × Bool),
    solveParallelGo rs net b = some out →
    out.1.terminals = net.terminals := by
  intro rs
  induction rs with
  | nil =>
      intro net b out h
      rw [← Option.some.inj h]
  | cons r rest ih =>
      intro net b out h
      unfold solveParallelGo at h
      by_cases hmem : ¬ memReq net.resistors r
      · rw [if_pos hmem] at h
        exact ih net b out h
      · rw [if_neg hmem] at h
        simp only [Option.bind_eq_bind, Option.bind_eq_some] at h
        obtain ⟨rs2, hfp, hbody⟩ := h
        by_cases hlen : rs2.length = 1
        · rw [if_pos hlen] at hbody
          exact ih net b out hbody
        · rw [if_neg hlen] at hbody
          simp only [Option.bind_eq_bind, Option.bind_eq_some] at hbody
          obtain ⟨net1, hjp, hrec⟩ := hbody
          rw [ih net1 true out hrec, join_parallel_terminals hjp]

theorem solve_parallel_terminals {net : RNetwork} {out : RNetwork × Bool}
    (h : net.solve_parallel = some out) :
    out.1.terminals = net.terminals :=
  solveParallelGo_terminals net.resistors net false out h

theorem convert_wye_to_delta_terminals {net : RNetwork} {r1 r2 r3 : Resistor}
    {net' : RNetwork} (h : net.convert_wye_to_delta r1 r2 r3 = some net') :
    net'.terminals = net.terminals := by
  unfold RNetwork.convert_wye_to_delta at h
  by_cases hcond :
      ((r1.nodesList ∩ r2.nodesList ∩ r3.nodesList).dedup).length = 1
  · rw [if_pos hcond] at h
    simp only [Option.bind_eq_bind, Option.bind_eq_some] at h
    obtain ⟨c, _, m1, _, m2, _, m3, _, netA, hA, netB, hB, netC, hC,
      hnet⟩ := h
    rw [← Option.some.inj hnet, add_terminals, add_terminals, add_terminals,
      remove_terminals hC, remove_terminals hB, remove_terminals hA]
  · rw [if_neg hcond] at h
    simp only [Option.bind_eq_bind, Option.none_bind] at h
    cases h

theorem convert_delta_to_wye_terminals {net : RNetwork} {ra rb rc : Resistor}
    {net' : RNetwork} (h : net.convert_delta_to_wye ra rb rc = some net') :
    net'.terminals = net.terminals := by
  unfold RNetwork.convert_delta_to_wye at h
  by_cases hc : ((ra.nodesList ++ rb.nodesList ++ rc.nodesList).dedup).length = 3
  · rw [if_pos hc] at h
    simp only [Option.bind_eq_bind, Option.bind_eq_some] at h
    obtain ⟨oa, _, ob, _, oc, _, netA, hA, netB, hB, netC, hC, hnet⟩ := h
    rw [← Option.some.inj hnet, add_terminals, add_terminals, add_terminals,
      remove_terminals hC, remove_terminals hB, remove_terminals hA]
  · rw [if_neg hc] at h
    cases h

theorem spLoop_terminals (sfuel : ℕ) :
    ∀ (fuel : ℕ) (net net' : RNetwork),
    spLoop sfuel fuel net = some net' → net'.terminals = net.terminals := by
  intro fuel
  induction fuel with
  | zero => intro net net' h; cases h
  | succ fuel ih =>
      intro net net' h
      unfold spLoop at h
      simp only [Option.bind_eq_bind, Option.bind_eq_some] at h
      obtain ⟨p, hp, hbody⟩ := h
      by_cases hpb : p.2 = true
      · rw [if_pos hpb] at hbody
        rw [ih p.1 net' hbody, solve_parallel_terminals hp]
      · rw [if_neg hpb] at hbody
        simp only [Option.bind_eq_bind, Option.bind_eq_some] at hbody
        obtain ⟨s, hs, hbody2⟩ := hbody
        by_cases hsb : s.2 = true
        · rw [if_pos hsb] at hbody2
          rw [ih s.1 net' hbody2, solve_series_terminals hs,
            solve_parallel_terminals hp]
        · rw [if_neg hsb] at hbody2
          rw [← Option.some.inj hbody2, solve_series_terminals hs,
            solve_parallel_terminals hp]

theorem solveFuel_terminals
    (chooser : RNetwork → Option (Resistor × Resistor × Resistor))
    (sfuel lfuel : ℕ) :
    ∀ (fuel : ℕ) (net net' : RNetwork),
    solveFuel chooser sfuel lfuel fuel net = some net' →
    net'.terminals = net.terminals := by
  intro fuel
  induction fuel with
  | zero => intro net net' h; cases h
  | succ fuel ih =>
      intro net net' h
      unfold solveFuel at h
      simp only [Option.bind_eq_bind, Option.bind_eq_some] at h
      obtain ⟨net1, hprune, net2, hsp, hbody⟩ := h
      have hpre : net2.terminals = net.terminals := by
        rw [spLoop_terminals sfuel lfuel net1 net2 hsp,
          prune_dangling_terminals hprune]
      cases hfw : net2.find_wye with
      | some w =>
          rw [hfw] at hbody
          simp only [Option.bind_eq_bind, Option.bind_eq_some] at hbody
          obtain ⟨net3, hconv, hrec⟩ := hbody
          rw [ih net3 net' hrec, convert_wye_to_delta_terminals hconv, hpre]
      | none =>
          rw [hfw] at hbody
          by_cases hdone :
              (nodeKeys net2).toFinset = net2.terminals.toFinset
          · rw [if_pos hdone] at hbody
            rw [← Option.some.inj hbody, hpre]
          · rw [if_neg hdone] at hbody
            simp only [Option.bind_eq_bind, Option.bind_eq_some] at hbody
            obtain ⟨w, hw, net3, hconv, hrec⟩ := hbody
            rw [ih net3 net' hrec, convert_delta_to_wye_terminals hconv,
              hpre]

theorem ROp_apply_terminals (op : ROp) (net net' : RNetwork)
    (h : op.apply net = some net') : net'.terminals = net.terminals := by
  cases op with
  | prune => exact prune_dangling_terminals h
  | series fuel =>
      simp only [ROp.apply] at h
      cases hs : net.solve_series fuel with
      | none => rw [hs] at h; simp at h
      | some out =>
          rw [hs] at h
          simp only [Option.map_some'] at h
          rw [← Option.some.inj h]
          exact solve_series_terminals hs
  | parallel =>
      simp only [ROp.apply] at h
      cases hs : net.solve_parallel with
      | none => rw [hs] at h; simp at h
      | some out =>
          rw [hs] at h
          simp only [Option.map_some'] at h
          rw [← Option.some.inj h]
          exact solve_parallel_terminals hs
  | wyeToDelta r1 r2 r3 => exact convert_wye_to_delta_terminals h
  | deltaToWye r1 r2 r3 => exact convert_delta_to_wye_terminals h
  | solve chooser sfuel lfuel fuel =>
      exact solveFuel_terminals chooser sfuel lfuel fuel net net' h

/-- C3: for every sequence of reduction operations (prune_dangling,
solve_series, solve_parallel, the Wye/Delta conversions, and solve with
any delta-choosing strategy), the terminal set is never altered — a
disconnected terminal is at most left with degree 0. -/
theorem claim3_terminal_preservation :
    ∀ (ops : List ROp) (net net' : RNetwork),
    runOps ops net = some net' → net'.terminals = net.terminals := by
  intro ops
  induction ops with
  | nil =>
      intro net net' h
      rw [← Option.some.inj h]
  | cons op rest ih =>
      intro net net' h
      unfold runOps at h
      simp only [Option.bind_eq_bind, Option.bind_eq_some] at h
      obtain ⟨net1, hop, hrest⟩ := h
      rw [ih net1 net' hrest, ROp_apply_terminals op net net1 hop]

/-- C3 witness: pruning the dangling branch off terminal 0 leaves the
terminal set `[0]` unchanged. -/
theorem claim3_witness :
    (⟨[], [], [0]⟩ : RNetwork).terminals = pruneWitNet.terminals :=
  claim3_terminal_preservation [ROp.prune] pruneWitNet ⟨[], [], [0]⟩
    (by decide)

end RSolver
